import Mathlib

/-
Shallow embedding of the paragen CSG-builder core (src/paragen.py).

The Blender host (bpy / mathutils) is an external collaborator; it is
modelled per the external-interface contract of the spec (section 6) as
plain data stores: a list of scene objects, a list of mesh datablocks, a
list of materials, a selection list, an active-object reference, and a
fresh-handle counter that hands out unique integer handles.  Host calls
(primitive_add, object copy, delete of the selection, material creation)
act on these stores.  The module-level `paragen_stack` and every function
of paragen.py's helper section are translated line by line below; Python
exceptions become `Except` errors carrying the state at raise time.
-/

/-- Blender float triples (location, rotation_euler, scale) as rational
3-vectors; the code only assigns them and overrides single axes. -/
structure Vec3 where
  x : Rat
  y : Rat
  z : Rat
deriving DecidableEq

/-- World matrices (mathutils 4x4): the code only copies, stores and resets
them, so they are opaque grids of rationals. -/
abbrev Mat := Fin 4 → Fin 4 → Rat

/-- Embeds mathutils.Matrix(): the identity matrix. -/
def Mat.identity : Mat := fun i j => if i = j then 1 else 0

/-- Python exceptions raised by the embedded code paths: IndexError from
`paragen_stack[-1]` on an empty stack, KeyError / ReferenceError from a
lookup of a missing object, AssertionError from a failed `assert`, and an
arbitrary exception raised by a user build routine. -/
inductive Err where
  | indexError
  | keyError
  | assertionError
  | userError
deriving DecidableEq

/-- The shared transform keyword arguments of paragen.py: whole vectors
p / r / s with their Python defaults and the optional per-axis overrides
px..sz defaulting to None. -/
structure TArgs where
  p : Vec3 := ⟨0, 0, 0⟩
  px : Option Rat := none
  py : Option Rat := none
  pz : Option Rat := none
  r : Vec3 := ⟨0, 0, 0⟩
  rx : Option Rat := none
  ry : Option Rat := none
  rz : Option Rat := none
  s : Vec3 := ⟨1, 1, 1⟩
  sx : Option Rat := none
  sy : Option Rat := none
  sz : Option Rat := none
deriving DecidableEq

/-- A mesh datablock (bpy.data.meshes entry): handle, name and its
material-slot list, held as full material names. -/
structure Mesh where
  id : Nat
  name : String
  materials : List String
deriving DecidableEq

/-- A scene object (bpy.data.objects entry): handle, name, transform
fields, stored world matrix, optional parent handle and mesh-data handle. -/
structure Obj where
  id : Nat
  name : String
  location : Vec3
  rotation_euler : Vec3
  scale : Vec3
  matrix_world : Mat
  parent : Option Nat
  data : Nat
deriving DecidableEq

/-- A material (bpy.data.materials entry): full name, Principled-BSDF base
color (RGBA) and metallic factor. -/
structure Material where
  name : String
  base_color : Rat × Rat × Rat × Rat
  metallic : Rat
deriving DecidableEq

/-- Embeds paragen.py lines 192-196: dataclass ParagenStackLayer with the
frame's bpy_object and its list of temporaries. -/
structure ParagenStackLayer where
  bpy_object : Nat
  temps : List Nat
deriving DecidableEq

/-- The process-wide mutable state: the Blender data stores, the host's
active object and selection, the fresh-handle counter, and paragen.py's
module-level `paragen_stack` (head of the list is the top of the stack). -/
structure SceneState where
  objects : List Obj
  meshes : List Mesh
  materials : List Material
  stack : List ParagenStackLayer
  active_object : Option Nat
  selected : List Nat
  next_id : Nat
deriving DecidableEq

/-- A Python-level outcome: either an exception together with the state at
raise time, or a value with the updated state. -/
abbrev PResult (α : Type) := Except (Err × SceneState) α

/-- The object handles present in a scene-object list. -/
def idsOf (l : List Obj) : List Nat := l.map (fun o => o.id)

/-- Dereference an object handle (a live Python reference / a
bpy.data.objects lookup). -/
def getObj (l : List Obj) (i : Nat) : Option Obj :=
  l.find? (fun o => o.id == i)

/-- Mutate the object with the given handle in place. -/
def updateObjList (l : List Obj) (i : Nat) (f : Obj → Obj) : List Obj :=
  l.map (fun o => if o.id == i then f o else o)

/-- Mutate the object with the given handle in place, at state level. -/
def updateObj (st : SceneState) (i : Nat) (f : Obj → Obj) : SceneState :=
  { st with objects := updateObjList st.objects i f }

/-- Embeds `if px is not None: obj.location[0] = px`: one per-axis
override of the x axis. -/
def setX (v : Vec3) (o : Option Rat) : Vec3 :=
  match o with
  | some a => { v with x := a }
  | none => v

/-- Per-axis override of the y axis. -/
def setY (v : Vec3) (o : Option Rat) : Vec3 :=
  match o with
  | some a => { v with y := a }
  | none => v

/-- Per-axis override of the z axis. -/
def setZ (v : Vec3) (o : Option Rat) : Vec3 :=
  match o with
  | some a => { v with z := a }
  | none => v

/-- Assign a whole vector, then apply the three per-axis overrides in the
order the source applies them. -/
def overrideAxes (v : Vec3) (ox oy oz : Option Rat) : Vec3 :=
  setZ (setY (setX v ox) oy) oz

/-- Embeds `result.data.materials.append(material)`: append a material name
to the material slots of the mesh data of the object with handle i. -/
def appendMatToMesh (st : SceneState) (i : Nat) (m : String) : SceneState :=
  match getObj st.objects i with
  | none => st
  | some o =>
    { st with meshes := st.meshes.map (fun me =>
        if me.id == o.data then { me with materials := me.materials ++ [m] }
        else me) }

/-- Models the host call bpy.ops.mesh.primitive_<kind>_add(location=..,
rotation=.., scale=.., **shape_args) per the spec's external interface:
creates a fresh mesh and a fresh object with host-chosen unique handles and
names, links the object into the scene, and makes it the active, selected
object.  Kind-specific shape arguments (radius, depth, ...) only affect
geometry, which is not tracked here. -/
def create_primitive (kind : String) (loc rot sc : Vec3) (st : SceneState) :
    Nat × SceneState :=
  let meshId := st.next_id
  let objId := st.next_id + 1
  let me : Mesh := ⟨meshId, kind ++ toString meshId, []⟩
  let o : Obj := ⟨objId, kind ++ toString objId, loc, rot, sc, Mat.identity,
    none, meshId⟩
  (objId, { st with
    meshes := st.meshes ++ [me]
    objects := st.objects ++ [o]
    next_id := st.next_id + 2
    active_object := some objId
    selected := [objId] })

/-- Embeds paragen.py lines 110-150, prim(name, material, p.., r.., s..,
**mesh_args): build the primitive with p/r/s, apply the per-axis overrides
to the result, optionally attach the material, then register the result in
`paragen_stack[-1].temps` — raising IndexError there when the stack is
empty, after the object has already been created. -/
def prim (kind : String) (mat : Option String) (t : TArgs) (st : SceneState) :
    PResult (Nat × SceneState) :=
  let pr := create_primitive kind t.p t.r t.s st
  let objId := pr.1
  let st2 := updateObj pr.2 objId (fun o =>
    { o with
      location := overrideAxes o.location t.px t.py t.pz
      rotation_euler := overrideAxes o.rotation_euler t.rx t.ry t.rz
      scale := overrideAxes o.scale t.sx t.sy t.sz })
  let st3 := match mat with
    | none => st2
    | some m => appendMatToMesh st2 objId m
  match st3.stack with
  | [] => .error (.indexError, st3)
  | fr :: rest =>
    .ok (objId, { st3 with
      stack := { fr with temps := fr.temps ++ [objId] } :: rest })

/-- Embeds paragen.py lines 199-200: paragen_stack[-1].bpy_object.name + '.'
— IndexError on an empty stack, KeyError-style failure on a dead object
reference. -/
def get_name_prefix (st : SceneState) : Except Err String :=
  match st.stack with
  | [] => .error .indexError
  | fr :: _ =>
    match getObj st.objects fr.bpy_object with
    | none => .error .keyError
    | some o => .ok (o.name ++ ".")

/-- Embeds paragen.py lines 12-57: boolean(operation, mesh, transforms,
**mesh_args).  A string target is built with prim first (forwarding a
possible material keyword); the target's transform is assigned from p/r/s
plus overrides; the frame's bpy_object is re-asserted as the active object;
the boolean modifier is created and applied (a pure geometry bake, not
tracked here); the selection is cleared. -/
def boolean (operation : String) (target : Sum Nat String)
    (mat : Option String) (t : TArgs) (st : SceneState) :
    PResult SceneState :=
  let resolved : PResult (Nat × SceneState) :=
    match target with
    | .inr kind => prim kind mat {} st
    | .inl i => .ok (i, st)
  match resolved with
  | .error e => .error e
  | .ok (meshId, st1) =>
    let st2 := updateObj st1 meshId (fun o =>
      { o with
        location := overrideAxes t.p t.px t.py t.pz
        rotation_euler := overrideAxes t.r t.rx t.ry t.rz
        scale := overrideAxes t.s t.sx t.sy t.sz })
    match st2.stack with
    | [] => .error (.indexError, st2)
    | fr :: _ =>
      let st3 := { st2 with active_object := some fr.bpy_object }
      .ok { st3 with selected := [] }

/-- Embeds paragen.py lines 59-63: union(...) = boolean('UNION', ...). -/
def union (target : Sum Nat String) (mat : Option String) (t : TArgs)
    (st : SceneState) : PResult SceneState :=
  boolean "UNION" target mat t st

/-- Embeds paragen.py lines 65-69: difference(...) =
boolean('DIFFERENCE', ...). -/
def difference (target : Sum Nat String) (mat : Option String) (t : TArgs)
    (st : SceneState) : PResult SceneState :=
  boolean "DIFFERENCE" target mat t st

/-- Embeds paragen.py lines 71-92: material(name, base_color, metallic).
The `assert 0 <= metallic <= 1` runs first; then the full name is prefixed,
an existing material of that full name is removed, the replacement is
created with the given color and metallic values, and it is appended to the
material slots of the frame's bpy_object. -/
def material (nm : String) (base_color : Rat × Rat × Rat × Rat)
    (metallic : Rat) (st : SceneState) : PResult (String × SceneState) :=
  if 0 ≤ metallic ∧ metallic ≤ 1 then
    match get_name_prefix st with
    | .error e => .error (e, st)
    | .ok pre =>
      let full := pre ++ nm
      let mats := if st.materials.any (fun m => m.name == full)
        then st.materials.eraseP (fun m => m.name == full)
        else st.materials
      let st1 := { st with
        materials := mats ++ [Material.mk full base_color metallic] }
      match st1.stack with
      | [] => .error (.indexError, st1)
      | fr :: _ => .ok (full, appendMatToMesh st1 fr.bpy_object full)
  else .error (.assertionError, st)

/-- Embeds paragen.py lines 94-108: blank(name, materials) — a fresh empty
mesh and object named with the frame prefix, linked into the scene,
registered as a temporary of the current frame, with the given materials
appended to its mesh data. -/
def blank (nm : String) (mats : List String) (st : SceneState) :
    PResult (Nat × SceneState) :=
  match get_name_prefix st with
  | .error e => .error (e, st)
  | .ok pre =>
    let full := pre ++ nm
    let meshId := st.next_id
    let objId := st.next_id + 1
    let me : Mesh := ⟨meshId, full, mats⟩
    let o : Obj := ⟨objId, full, ⟨0, 0, 0⟩, ⟨0, 0, 0⟩, ⟨1, 1, 1⟩,
      Mat.identity, none, meshId⟩
    let st1 := { st with
      meshes := st.meshes ++ [me]
      objects := st.objects ++ [o]
      next_id := st.next_id + 2 }
    match st1.stack with
    | [] => .error (.indexError, st1)
    | fr :: rest =>
      .ok (objId, { st1 with
        stack := { fr with temps := fr.temps ++ [objId] } :: rest })

/-- Embeds paragen.py lines 152-190: instance(name, bpy_object, transforms,
**bpy_args).  A string source is built with prim first (and so registered
as a temporary); the source is shallow-copied — the copy shares the
source's mesh-data handle — parented under the frame's bpy_object, linked,
renamed to the frame prefix plus name, and its transform assigned from the
call's own arguments.  The source itself is never modified.  On an empty
stack the parent assignment raises IndexError after the copy was made. -/
def instanceOp (nm : String) (src : Sum Nat String) (mat : Option String)
    (t : TArgs) (st : SceneState) : PResult SceneState :=
  let resolved : PResult (Nat × SceneState) :=
    match src with
    | .inr kind => prim kind mat {} st
    | .inl i => .ok (i, st)
  match resolved with
  | .error e => .error e
  | .ok (srcId, st1) =>
    match getObj st1.objects srcId with
    | none => .error (.keyError, st1)
    | some srcObj =>
      let copyId := st1.next_id
      match st1.stack with
      | [] => .error (.indexError, { st1 with
          objects := st1.objects ++ [{ srcObj with id := copyId }]
          next_id := st1.next_id + 1 })
      | fr :: _ =>
        match get_name_prefix st1 with
        | .error e => .error (e, st1)
        | .ok pre =>
          let cp : Obj := { srcObj with
            id := copyId
            name := pre ++ nm
            parent := some fr.bpy_object
            location := overrideAxes t.p t.px t.py t.pz
            rotation_euler := overrideAxes t.r t.rx t.ry t.rz
            scale := overrideAxes t.s t.sx t.sy t.sz }
          .ok { st1 with
            objects := st1.objects ++ [cp]
            next_id := st1.next_id + 1 }

/-- Embeds paragen.py lines 240-253 (the start of a decorated builder
call): force object mode (host bookkeeping, stateless here), deselect
everything, and if an object of the target name exists select it together
with its children and delete the selection. -/
def paragenPre (nm : String) (st : SceneState) : SceneState :=
  let st1 := { st with selected := [] }
  match st1.objects.find? (fun o => o.name == nm) with
  | none => st1
  | some old =>
    let sel := old.id ::
      (st1.objects.filter (fun o => o.parent == some old.id)).map
        (fun o => o.id)
    { st1 with
      objects := st1.objects.filter (fun o => decide (o.id ∉ sel))
      selected := [] }

/-- Embeds paragen.py lines 255-276: create the named mesh and root object,
link it, assign the transform arguments with per-axis overrides, rename the
mesh data back to the target name, and make the root the active object. -/
def createRoot (nm : String) (t : TArgs) (st : SceneState) :
    Nat × SceneState :=
  let meshId := st.next_id
  let objId := st.next_id + 1
  let me : Mesh := ⟨meshId, nm, []⟩
  let o : Obj := ⟨objId, nm, overrideAxes t.p t.px t.py t.pz,
    overrideAxes t.r t.rx t.ry t.rz, overrideAxes t.s t.sx t.sy t.sz,
    Mat.identity, none, meshId⟩
  (objId, { st with
    meshes := st.meshes ++ [me]
    objects := st.objects ++ [o]
    next_id := st.next_id + 2
    active_object := some objId })

/-- Embeds paragen.py lines 204-212, the part of paragen_context before the
yield: push a fresh frame for the object, host mode bookkeeping, deselect,
and reset the object's world matrix to the identity.  The saved copy of the
previous world matrix is held by the caller. -/
def contextEnter (objId : Nat) (st : SceneState) : SceneState :=
  let st1 := { st with stack := ⟨objId, []⟩ :: st.stack, selected := [] }
  updateObj st1 objId (fun o => { o with matrix_world := Mat.identity })

/-- Embeds paragen.py lines 216-223, the part of paragen_context after the
yield: deselect, select every temporary of the top frame by its current
name and delete the selection, restore the saved world matrix, and pop the
frame.  Returns the popped temporaries list alongside the state; a
temporary that is no longer present is skipped by the name lookup. -/
def contextExit (objId : Nat) (saved : Mat) (st : SceneState) :
    PResult (SceneState × List Nat) :=
  let st1 := { st with selected := [] }
  match st1.stack with
  | [] => .error (.indexError, st1)
  | fr :: rest =>
    let tempNames := fr.temps.filterMap (fun tid =>
      (getObj st1.objects tid).map (fun o => o.name))
    let st2 := { st1 with
      objects := st1.objects.filter (fun o => decide (o.name ∉ tempNames))
      selected := [] }
    let st3 := updateObj st2 objId (fun o => { o with matrix_world := saved })
    .ok ({ st3 with stack := rest }, fr.temps)

/-- Embeds bpy_object.matrix_world.copy(): read an object's current world
matrix (identity for a dead reference, which the verified flows avoid). -/
def getMatrix (st : SceneState) (objId : Nat) : Mat :=
  match getObj st.objects objId with
  | none => Mat.identity
  | some o => o.matrix_world

/-- Embeds the paragen_context context manager (paragen.py lines 202-223)
wrapped around a body: save the object's world matrix, run the enter
section, run the body, and run the exit section only when the body returns
normally.  An exception thrown into the generator at the yield propagates
without running the cleanup, exactly as contextlib behaves when the
generator has no try/finally around the yield. -/
def runParagenContext (objId : Nat)
    (body : SceneState → PResult SceneState) (st : SceneState) :
    PResult (SceneState × List Nat) :=
  let saved := getMatrix st objId
  match body (contextEnter objId st) with
  | .error e => .error e
  | .ok st2 => contextExit objId saved st2

/-- Build-routine command language: straight-line sequences of the paragen
composition primitives, nested paragen_context blocks and nested
paragen-decorated builder calls, exactly the shapes the model library uses.
Object-valued results (from prim, blank and nested builder calls) are
appended to an environment and referenced positionally. -/
inductive Cmd where
  | skip
  | seq (a b : Cmd)
  | cprim (kind : String) (mat : Option String) (t : TArgs)
  | cboolean (op : String) (target : Sum Nat String) (mat : Option String)
      (t : TArgs)
  | cmaterial (nm : String) (color : Rat × Rat × Rat × Rat) (metallic : Rat)
  | cblank (nm : String) (mats : List String)
  | cinstance (nm : String) (src : Sum Nat String) (mat : Option String)
      (t : TArgs)
  | ccontext (v : Nat) (body : Cmd)
  | cpgen (nm : String) (t : TArgs) (body : Cmd)

/-- Resolve a program reference: `.inl v` names the v-th object bound so
far, `.inr kind` is a primitive-kind string passed through. -/
def resolveRef (env : List Nat) (r : Sum Nat String) (st : SceneState) :
    PResult (Sum Nat String) :=
  match r with
  | .inr kind => .ok (.inr kind)
  | .inl v =>
    match env.get? v with
    | none => .error (.keyError, st)
    | some i => .ok (.inl i)

/-- Run a build-routine program.  Returns the extended environment, the
final state, and the accumulated list of every temporary that belonged to a
frame popped during the run (each pop contributes the popped frame's
temporaries list). -/
def interp : Cmd → List Nat → SceneState →
    PResult (List Nat × SceneState × List Nat)
  | .skip, env, st => .ok (env, st, [])
  | .seq a b, env, st =>
    match interp a env st with
    | .error e => .error e
    | .ok (e1, s1, l1) =>
      match interp b e1 s1 with
      | .error e => .error e
      | .ok (e2, s2, l2) => .ok (e2, s2, l1 ++ l2)
  | .cprim kind mat t, env, st =>
    match prim kind mat t st with
    | .error e => .error e
    | .ok (i, st') => .ok (env ++ [i], st', [])
  | .cboolean op target mat t, env, st =>
    match resolveRef env target st with
    | .error e => .error e
    | .ok tgt =>
      match boolean op tgt mat t st with
      | .error e => .error e
      | .ok st' => .ok (env, st', [])
  | .cmaterial nm color m, env, st =>
    match material nm color m st with
    | .error e => .error e
    | .ok (_, st') => .ok (env, st', [])
  | .cblank nm mats, env, st =>
    match blank nm mats st with
    | .error e => .error e
    | .ok (i, st') => .ok (env ++ [i], st', [])
  | .cinstance nm src mat t, env, st =>
    match resolveRef env src st with
    | .error e => .error e
    | .ok s' =>
      match instanceOp nm s' mat t st with
      | .error e => .error e
      | .ok st' => .ok (env, st', [])
  | .ccontext v body, env, st =>
    match env.get? v with
    | none => .error (.keyError, st)
    | some objId =>
      let saved := getMatrix st objId
      match interp body env (contextEnter objId st) with
      | .error e => .error e
      | .ok (e2, s2, l2) =>
        match contextExit objId saved s2 with
        | .error e => .error e
        | .ok (s3, popped) => .ok (e2, s3, l2 ++ popped)
  | .cpgen nm t body, env, st =>
    let st1 := paragenPre nm st
    let pr := createRoot nm t st1
    let rootId := pr.1
    let saved := getMatrix pr.2 rootId
    match interp body env (contextEnter rootId pr.2) with
    | .error e => .error e
    | .ok (e2, s2, l2) =>
      match contextExit rootId saved s2 with
      | .error e => .error e
      | .ok (s3, popped) => .ok (e2 ++ [rootId], s3, l2 ++ popped)

/-- Host invariants maintained by Blender's data stores: object handles are
unique and below the fresh-handle counter, and so is every handle
registered as a frame temporary. -/
def HostWF (st : SceneState) : Prop :=
  (idsOf st.objects).Nodup ∧
  (∀ i ∈ idsOf st.objects, i < st.next_id) ∧
  (∀ fr ∈ st.stack, ∀ tid ∈ fr.temps, tid < st.next_id)

instance (st : SceneState) : Decidable (HostWF st) := by
  unfold HostWF; infer_instance

/-- The empty scene before any script runs. -/
def initState : SceneState :=
  { objects := []
    meshes := []
    materials := []
    stack := []
    active_object := none
    selected := []
    next_id := 0 }

/-- Per-instantiation step for a sequence of instance calls on one source
object: run instance(name, source, transform) for each listed call. -/
def runInstances (src : Nat) : List (String × TArgs) → SceneState →
    PResult SceneState
  | [], st => .ok st
  | (nm, t) :: rest, st =>
    match instanceOp nm (.inl src) none t st with
    | .error e => .error e
    | .ok st' => runInstances src rest st'

/-- The copies a sequence of instance calls is expected to create: each one
shares the source's record (in particular its mesh-data handle) but has a
fresh handle, the prefixed name, the frame's bpy_object as parent and its
own call's transform. -/
def expectedCopies (srcObj : Obj) (parentId : Nat) (pre : String) :
    Nat → List (String × TArgs) → List Obj
  | _, [] => []
  | nid, (nm, t) :: rest =>
    { srcObj with
      id := nid
      name := pre ++ nm
      parent := some parentId
      location := overrideAxes t.p t.px t.py t.pz
      rotation_euler := overrideAxes t.r t.rx t.ry t.rz
      scale := overrideAxes t.s t.sx t.sy t.sz } ::
      expectedCopies srcObj parentId pre (nid + 1) rest

/-- A build-routine body that raises an arbitrary exception at once. -/
def raisingBody : SceneState → PResult SceneState :=
  fun s => .error (.userError, s)

/-- A build-routine body that returns at once without touching anything. -/
def idBody : SceneState → PResult SceneState := fun s => .ok s

/-- A base object with a non-identity world matrix, for concrete runs. -/
def baseObjW : Obj :=
  { id := 0
    name := "Base"
    location := ⟨0, 0, 0⟩
    rotation_euler := ⟨0, 0, 0⟩
    scale := ⟨1, 1, 1⟩
    matrix_world := fun _ _ => 7
    parent := none
    data := 1 }

/-- A template object sharing no handles with `baseObjW`. -/
def srcObjW : Obj :=
  { id := 2
    name := "Template"
    location := ⟨4, 4, 4⟩
    rotation_euler := ⟨0, 0, 0⟩
    scale := ⟨1, 1, 1⟩
    matrix_world := Mat.identity
    parent := none
    data := 3 }

/-- A concrete state with one open frame for `baseObjW`, as left by a
paragen call that has just entered its context. -/
def frameState : SceneState :=
  { objects := [baseObjW]
    meshes := [⟨1, "BaseMesh", []⟩]
    materials := []
    stack := [⟨0, []⟩]
    active_object := some 0
    selected := []
    next_id := 2 }

/-- `frameState` extended with the template object `srcObjW`. -/
def srcState : SceneState :=
  { objects := [baseObjW, srcObjW]
    meshes := [⟨1, "BaseMesh", []⟩, ⟨3, "TemplateMesh", []⟩]
    materials := []
    stack := [⟨0, []⟩]
    active_object := some 0
    selected := []
    next_id := 4 }

/-- A stale root object named T left over from a previous build. -/
def oldRootW : Obj := { baseObjW with id := 0, name := "T" }

/-- A child of the stale root. -/
def childW : Obj := { baseObjW with id := 1, name := "T.child", parent := some 0 }

/-- An unrelated bystander object. -/
def strayW : Obj := { baseObjW with id := 2, name := "Other" }

/-- A concrete scene holding a stale root named T, one child of it, and an
unrelated object, as before a repeated builder invocation. -/
def oldState : SceneState :=
  { objects := [oldRootW, childW, strayW]
    meshes := [⟨1, "BaseMesh", []⟩]
    materials := []
    stack := []
    active_object := none
    selected := []
    next_id := 3 }

/-- The concrete builder program used to exercise temporary cleanup: a
paragen-decorated call whose routine creates one primitive and one blank. -/
def progW : Cmd :=
  Cmd.cpgen "Root" {} (Cmd.seq (Cmd.cprim "cube" none {}) (Cmd.cblank "Tmp" []))

/-- The result of running `progW` on the empty scene. -/
def progWRun : PResult (List Nat × SceneState × List Nat) :=
  interp progW [] initState

/-- Environment component of `progWRun`. -/
def progWEnv : List Nat :=
  match progWRun with
  | .ok (e, _, _) => e
  | .error _ => []

/-- Final-state component of `progWRun`. -/
def progWSt : SceneState :=
  match progWRun with
  | .ok (_, s, _) => s
  | .error _ => initState

/-- Popped-temporaries log component of `progWRun`. -/
def progWLog : List Nat :=
  match progWRun with
  | .ok (_, _, l) => l
  | .error _ => []

/-- The transform arguments of the spec's override example: a whole position
vector (1,2,3) together with a per-axis override of the x axis to 9. -/
def t3 : TArgs := { p := ⟨1, 2, 3⟩, px := some 9 }

/-- A concrete prim call with `t3` inside the open frame. -/
def w3prun : PResult (Nat × SceneState) := prim "cube" none t3 frameState

/-- Handle of the primitive created by `w3prun`. -/
def w3pId : Nat :=
  match w3prun with
  | .ok (i, _) => i
  | .error _ => 0

/-- State after `w3prun`. -/
def w3pSt : SceneState :=
  match w3prun with
  | .ok (_, s) => s
  | .error _ => initState

/-- A concrete boolean call with `t3` against the frame's base object. -/
def w3brun : PResult SceneState := boolean "UNION" (.inl 0) none t3 frameState

/-- State after `w3brun`. -/
def w3bSt : SceneState :=
  match w3brun with
  | .ok s => s
  | .error _ => initState

/-- A concrete instance call with `t3` on the template object. -/
def w3irun : PResult SceneState := instanceOp "Inst" (.inl 2) none t3 srcState

/-- State after `w3irun`. -/
def w3iSt : SceneState :=
  match w3irun with
  | .ok s => s
  | .error _ => initState

/-- A concrete scoped-context run with a body that returns at once. -/
def w7run : PResult (SceneState × List Nat) :=
  runParagenContext 0 idBody frameState

/-- State after `w7run`. -/
def w7st : SceneState :=
  match w7run with
  | .ok (s, _) => s
  | .error _ => initState

/-- Popped temporaries of `w7run`. -/
def w7popped : List Nat :=
  match w7run with
  | .ok (_, l) => l
  | .error _ => []

/-- A concrete instance call with a primitive-kind string source. -/
def w10run : PResult SceneState :=
  instanceOp "Copy" (.inr "cube") none t3 frameState

/-- State after `w10run`. -/
def w10st : SceneState :=
  match w10run with
  | .ok s => s
  | .error _ => initState

/-- Popping the frame left by `w10run`. -/
def w10exit : PResult (SceneState × List Nat) :=
  contextExit 0 baseObjW.matrix_world w10st

/-- State after `w10exit`. -/
def w10st2 : SceneState :=
  match w10exit with
  | .ok (s, _) => s
  | .error _ => initState

/-- Popped temporaries of `w10exit`. -/
def w10popped : List Nat :=
  match w10exit with
  | .ok (_, l) => l
  | .error _ => []

/-- What one non-popping operation does to the host bookkeeping: the handle
counter only grows, every surviving handle is old or freshly allocated, the
host invariants are preserved, and the frame stack keeps its depth. -/
def FlatStep (st st' : SceneState) : Prop :=
  st.next_id ≤ st'.next_id ∧
  (∀ i ∈ idsOf st'.objects, i ∈ idsOf st.objects ∨ st.next_id ≤ i) ∧
  (HostWF st → HostWF st') ∧
  st'.stack.length = st.stack.length

theorem create_primitive_fst (kind : String) (lo ro sc : Vec3)
    (st : SceneState) : (create_primitive kind lo ro sc st).1 = st.next_id + 1 :=
  rfl

theorem create_primitive_stack (kind : String) (lo ro sc : Vec3)
    (st : SceneState) : (create_primitive kind lo ro sc st).2.stack = st.stack :=
  rfl

theorem create_primitive_next_id (kind : String) (lo ro sc : Vec3)
    (st : SceneState) :
    (create_primitive kind lo ro sc st).2.next_id = st.next_id + 2 :=
  rfl

theorem create_primitive_materials (kind : String) (lo ro sc : Vec3)
    (st : SceneState) :
    (create_primitive kind lo ro sc st).2.materials = st.materials :=
  rfl

theorem updateObj_stack (st : SceneState) (i : Nat) (f : Obj → Obj) :
    (updateObj st i f).stack = st.stack :=
  rfl

theorem updateObj_objects (st : SceneState) (i : Nat) (f : Obj → Obj) :
    (updateObj st i f).objects = updateObjList st.objects i f :=
  rfl

theorem updateObj_next_id (st : SceneState) (i : Nat) (f : Obj → Obj) :
    (updateObj st i f).next_id = st.next_id :=
  rfl

theorem updateObj_materials (st : SceneState) (i : Nat) (f : Obj → Obj) :
    (updateObj st i f).materials = st.materials :=
  rfl

theorem appendMatToMesh_stack (st : SceneState) (i : Nat) (m : String) :
    (appendMatToMesh st i m).stack = st.stack := by
  unfold appendMatToMesh; split <;> rfl

theorem appendMatToMesh_objects (st : SceneState) (i : Nat) (m : String) :
    (appendMatToMesh st i m).objects = st.objects := by
  unfold appendMatToMesh; split <;> rfl

theorem appendMatToMesh_next_id (st : SceneState) (i : Nat) (m : String) :
    (appendMatToMesh st i m).next_id = st.next_id := by
  unfold appendMatToMesh; split <;> rfl

theorem appendMatToMesh_materials (st : SceneState) (i : Nat) (m : String) :
    (appendMatToMesh st i m).materials = st.materials := by
  unfold appendMatToMesh; split <;> rfl

theorem appendMatToMesh_active (st : SceneState) (i : Nat) (m : String) :
    (appendMatToMesh st i m).active_object = st.active_object := by
  unfold appendMatToMesh; split <;> rfl

theorem appendMatToMesh_selected (st : SceneState) (i : Nat) (m : String) :
    (appendMatToMesh st i m).selected = st.selected := by
  unfold appendMatToMesh; split <;> rfl

theorem idsOf_append (l₁ l₂ : List Obj) :
    idsOf (l₁ ++ l₂) = idsOf l₁ ++ idsOf l₂ := by
  simp [idsOf]

theorem idsOf_updateObjList (l : List Obj) (i : Nat) (f : Obj → Obj)
    (hf : ∀ o, (f o).id = o.id) :
    idsOf (updateObjList l i f) = idsOf l := by
  unfold idsOf updateObjList
  rw [List.map_map]
  refine List.map_congr_left (fun o _ => ?_)
  by_cases h : (o.id == i) = true
  · simp only [Function.comp_apply, if_pos h, hf]
  · simp only [Function.comp_apply, if_neg h]

theorem mem_idsOf (l : List Obj) (i : Nat) :
    i ∈ idsOf l ↔ ∃ o ∈ l, o.id = i := by
  simp [idsOf]

theorem getObj_eq_none_of_not_mem (l : List Obj) (i : Nat)
    (h : i ∉ idsOf l) : getObj l i = none := by
  unfold getObj
  rw [List.find?_eq_none]
  intro o ho hbeq
  exact h ((mem_idsOf l i).mpr ⟨o, ho, by simpa using hbeq⟩)

theorem getObj_append_left {l₁ : List Obj} {i : Nat} {a : Obj}
    (h : getObj l₁ i = some a) (l₂ : List Obj) :
    getObj (l₁ ++ l₂) i = some a := by
  unfold getObj at *
  rw [List.find?_append, h]
  rfl

theorem getObj_append_fresh (l : List Obj) (o : Obj)
    (h : o.id ∉ idsOf l) : getObj (l ++ [o]) o.id = some o := by
  unfold getObj
  rw [List.find?_append]
  have h1 : l.find? (fun a => a.id == o.id) = none := getObj_eq_none_of_not_mem l o.id h
  rw [h1]
  simp [List.find?]

theorem getObj_updateObjList (l : List Obj) (i : Nat) (f : Obj → Obj)
    (hf : ∀ o, (f o).id = o.id) (j : Nat) :
    getObj (updateObjList l i f) j =
      (getObj l j).map (fun o => if o.id == i then f o else o) := by
  unfold getObj updateObjList
  induction l with
  | nil => rfl
  | cons a l ih =>
    have hid : ((if a.id == i then f a else a).id == j) = (a.id == j) := by
      by_cases h : (a.id == i) = true
      · rw [if_pos h, hf]
      · rw [if_neg h]
    simp only [List.map_cons]
    by_cases h : (a.id == j) = true
    · rw [List.find?_cons_of_pos _ (by rw [hid]; exact h),
        @List.find?_cons_of_pos _ (fun o => o.id == j) a l h]
      rfl
    · rw [List.find?_cons_of_neg _ (by rw [hid]; exact fun hc => h hc),
        @List.find?_cons_of_neg _ (fun o => o.id == j) a l h]
      exact ih

theorem find?_filter {α : Type} {p q : α → Bool} {l : List α} {a : α}
    (h : l.find? p = some a) (hq : q a = true) :
    (l.filter q).find? p = some a := by
  induction l with
  | nil => simp at h
  | cons b l ih =>
    by_cases hpb : p b = true
    · rw [List.find?_cons_of_pos _ hpb] at h
      obtain rfl : b = a := by injection h
      rw [List.filter_cons, if_pos hq, List.find?_cons_of_pos _ hpb]
    · rw [List.find?_cons_of_neg _ hpb] at h
      rw [List.filter_cons]
      by_cases hqb : q b = true
      · rw [if_pos hqb, List.find?_cons_of_neg _ hpb]
        exact ih h
      · rw [if_neg hqb]
        exact ih h

theorem nodup_ids_inj {l : List Obj} (h : (idsOf l).Nodup) {a b : Obj}
    (ha : a ∈ l) (hb : b ∈ l) (hid : a.id = b.id) : a = b :=
  List.inj_on_of_nodup_map h ha hb hid

theorem filter_guarded_eraseP {α : Type} (p : α → Bool) (l : List α)
    (h : l.countP p ≤ 1) :
    (if l.any p then l.eraseP p else l).filter p = [] := by
  induction l with
  | nil => simp
  | cons a l ih =>
    rw [List.countP_cons] at h
    by_cases hpa : p a = true
    · have hany : (a :: l).any p = true := by simp [hpa]
      rw [hany, if_pos rfl, List.eraseP_cons, hpa]
      simp only [cond_true]
      rw [if_pos hpa] at h
      have h0 : l.countP p = 0 := by omega
      exact List.filter_eq_nil_iff.mpr (fun a ha => by
        have := List.countP_eq_zero.mp h0 a ha
        simpa using this)
    · rw [if_neg hpa, Nat.add_zero] at h
      simp only [Bool.not_eq_true] at hpa
      have hany : (a :: l).any p = l.any p := by simp [hpa]
      rw [hany]
      by_cases hl : l.any p = true
      · rw [hl, if_pos rfl, List.eraseP_cons, hpa]
        simp only [cond_false]
        rw [List.filter_cons, hpa]
        simp only [Bool.false_eq_true, if_false]
        have := ih h
        rwa [hl, if_pos rfl] at this
      · simp only [Bool.not_eq_true] at hl
        rw [hl]
        simp only [Bool.false_eq_true, if_false]
        rw [List.filter_cons, hpa]
        simp only [Bool.false_eq_true, if_false]
        have := ih h
        rwa [hl] at this

theorem create_primitive_objects (kind : String) (lo ro sc : Vec3)
    (st : SceneState) :
    (create_primitive kind lo ro sc st).2.objects =
      st.objects ++ [Obj.mk (st.next_id + 1) (kind ++ toString (st.next_id + 1))
        lo ro sc Mat.identity none st.next_id] :=
  rfl

theorem flatStep_rfl (st : SceneState) : FlatStep st st :=
  ⟨Nat.le_refl _, fun i hi => Or.inl hi, fun h => h, rfl⟩

theorem flatStep_trans {s1 s2 s3 : SceneState}
    (h1 : FlatStep s1 s2) (h2 : FlatStep s2 s3) : FlatStep s1 s3 := by
  obtain ⟨a1, b1, c1, d1⟩ := h1
  obtain ⟨a2, b2, c2, d2⟩ := h2
  refine ⟨Nat.le_trans a1 a2, ?_, fun h => c2 (c1 h), d2.trans d1⟩
  intro i hi
  rcases b2 i hi with h | h
  · rcases b1 i h with h' | h'
    · exact Or.inl h'
    · exact Or.inr h'
  · exact Or.inr (Nat.le_trans a1 h)

theorem prim_ok_shape {kind : String} {mat : Option String} {t : TArgs}
    {st : SceneState} {i : Nat} {st' : SceneState}
    (h : prim kind mat t st = .ok (i, st')) :
    i = st.next_id + 1 ∧ st'.next_id = st.next_id + 2 ∧
    idsOf st'.objects = idsOf st.objects ++ [st.next_id + 1] ∧
    st'.materials = st.materials ∧
    ∃ fr rest, st.stack = fr :: rest ∧
      st'.stack =
        ParagenStackLayer.mk fr.bpy_object (fr.temps ++ [st.next_id + 1])
          :: rest := by
  have hf : ∀ o : Obj,
      (({ o with
          location := overrideAxes o.location t.px t.py t.pz
          rotation_euler := overrideAxes o.rotation_euler t.rx t.ry t.rz
          scale := overrideAxes o.scale t.sx t.sy t.sz } : Obj)).id = o.id :=
    fun o => rfl
  cases mat with
  | none =>
    simp only [prim] at h
    rw [updateObj_stack, create_primitive_stack] at h
    cases hstk : st.stack with
    | nil => rw [hstk] at h; simp at h
    | cons fr rest =>
      rw [hstk] at h
      rw [Except.ok.injEq, Prod.mk.injEq] at h
      obtain ⟨hi, hst⟩ := h
      rw [create_primitive_fst] at hi
      subst hi
      subst hst
      refine ⟨rfl, rfl, ?_, rfl, fr, rest, rfl, rfl⟩
      rw [updateObj_objects, idsOf_updateObjList _ _ _ hf,
        create_primitive_objects, idsOf_append]
      rfl
  | some m =>
    simp only [prim] at h
    rw [appendMatToMesh_stack, updateObj_stack, create_primitive_stack] at h
    cases hstk : st.stack with
    | nil => rw [hstk] at h; simp at h
    | cons fr rest =>
      rw [hstk] at h
      rw [Except.ok.injEq, Prod.mk.injEq] at h
      obtain ⟨hi, hst⟩ := h
      rw [create_primitive_fst] at hi
      subst hi
      subst hst
      refine ⟨rfl, ?_, ?_, ?_, fr, rest, rfl, ?_⟩
      · show (appendMatToMesh _ _ _).next_id = st.next_id + 2
        rw [appendMatToMesh_next_id, updateObj_next_id,
          create_primitive_next_id]
      · show idsOf (appendMatToMesh _ _ _).objects = _
        rw [appendMatToMesh_objects, updateObj_objects,
          idsOf_updateObjList _ _ _ hf, create_primitive_objects, idsOf_append]
        rfl
      · show (appendMatToMesh _ _ _).materials = st.materials
        rw [appendMatToMesh_materials, updateObj_materials,
          create_primitive_materials]
      · rfl

theorem get_name_prefix_ok {st : SceneState} {pre : String}
    (h : get_name_prefix st = .ok pre) :
    ∃ fr rest base, st.stack = fr :: rest ∧
      getObj st.objects fr.bpy_object = some base ∧
      pre = base.name ++ "." := by
  unfold get_name_prefix at h
  split at h
  · simp at h
  · rename_i fr rest hstk
    split at h
    · simp at h
    · rename_i base hbase
      rw [Except.ok.injEq] at h
      exact ⟨fr, rest, base, hstk, hbase, h.symm⟩

theorem blank_ok_shape {nm : String} {mats : List String} {st : SceneState}
    {i : Nat} {st' : SceneState} (h : blank nm mats st = .ok (i, st')) :
    i = st.next_id + 1 ∧ st'.next_id = st.next_id + 2 ∧
    idsOf st'.objects = idsOf st.objects ++ [st.next_id + 1] ∧
    st'.materials = st.materials ∧
    ∃ fr rest, st.stack = fr :: rest ∧
      st'.stack =
        ParagenStackLayer.mk fr.bpy_object (fr.temps ++ [st.next_id + 1])
          :: rest := by
  unfold blank at h
  cases hpre : get_name_prefix st with
  | error e => rw [hpre] at h; simp at h
  | ok pre =>
    rw [hpre] at h
    simp only [] at h
    cases hstk : st.stack with
    | nil => rw [hstk] at h; simp at h
    | cons fr rest =>
      rw [hstk] at h
      rw [Except.ok.injEq, Prod.mk.injEq] at h
      obtain ⟨hi, hst⟩ := h
      subst hi
      subst hst
      refine ⟨rfl, rfl, ?_, rfl, fr, rest, rfl, rfl⟩
      rw [show (({ st with
          meshes := st.meshes ++ [Mesh.mk st.next_id (pre ++ nm) mats]
          objects := st.objects ++ [Obj.mk (st.next_id + 1) (pre ++ nm)
            ⟨0, 0, 0⟩ ⟨0, 0, 0⟩ ⟨1, 1, 1⟩ Mat.identity none st.next_id]
          next_id := st.next_id + 2 } : SceneState)).objects =
        st.objects ++ [Obj.mk (st.next_id + 1) (pre ++ nm)
          ⟨0, 0, 0⟩ ⟨0, 0, 0⟩ ⟨1, 1, 1⟩ Mat.identity none st.next_id] from rfl,
        idsOf_append]
      rfl

theorem material_ok_shape {nm : String} {color : Rat × Rat × Rat × Rat}
    {m : Rat} {st : SceneState} {full : String} {st' : SceneState}
    (h : material nm color m st = .ok (full, st')) :
    st'.objects = st.objects ∧ st'.stack = st.stack ∧
    st'.next_id = st.next_id ∧
    ∃ fr rest base, st.stack = fr :: rest ∧
      getObj st.objects fr.bpy_object = some base ∧
      full = base.name ++ "." ++ nm ∧
      st'.materials =
        (if st.materials.any (fun x => x.name == full)
          then st.materials.eraseP (fun x => x.name == full)
          else st.materials) ++ [Material.mk full color m] := by
  unfold material at h
  by_cases hm : 0 ≤ m ∧ m ≤ 1
  · rw [if_pos hm] at h
    split at h
    · simp at h
    · rename_i pre hpre
      obtain ⟨fr, rest, base, hstk, hbase, hpre'⟩ := get_name_prefix_ok hpre
      dsimp only [] at h
      split at h
      · simp at h
      · rename_i fr2 tail2 heq
        rw [Except.ok.injEq, Prod.mk.injEq] at h
        obtain ⟨hfull, hst⟩ := h
        subst hfull
        subst hst
        have heq' : st.stack = fr2 :: tail2 := heq
        rw [hstk] at heq'
        obtain ⟨h1, h2⟩ : fr = fr2 ∧ rest = tail2 := by
          injection heq' with ha hb; exact ⟨ha, hb⟩
        subst h1
        subst h2
        refine ⟨appendMatToMesh_objects _ _ _, appendMatToMesh_stack _ _ _,
          appendMatToMesh_next_id _ _ _, fr, rest, base, hstk, hbase, ?_,
          appendMatToMesh_materials _ _ _⟩
        rw [hpre']
  · rw [if_neg hm] at h
    simp at h

theorem prim_ok_flat {kind : String} {mat : Option String} {t : TArgs}
    {st : SceneState} {i : Nat} {st' : SceneState}
    (h : prim kind mat t st = .ok (i, st')) : FlatStep st st' := by
  obtain ⟨hi, hnid, hids, hmats, fr, rest, hstk, hstk'⟩ := prim_ok_shape h
  refine ⟨by omega, ?_, ?_, ?_⟩
  · intro j hj
    rw [hids] at hj
    rcases List.mem_append.mp hj with hj | hj
    · exact Or.inl hj
    · simp at hj; omega
  · rintro ⟨hnd, hbound, htemps⟩
    refine ⟨?_, ?_, ?_⟩
    · rw [hids, List.nodup_append]
      refine ⟨hnd, List.nodup_singleton _, ?_⟩
      intro a ha hb
      simp at hb
      subst hb
      have := hbound _ ha
      omega
    · intro j hj
      rw [hids] at hj
      rw [hnid]
      rcases List.mem_append.mp hj with hj | hj
      · have := hbound _ hj; omega
      · simp at hj; omega
    · intro fr' hfr' tid htid
      rw [hnid]
      rw [hstk'] at hfr'
      rcases List.mem_cons.mp hfr' with hfr' | hfr'
      · subst hfr'
        simp only [] at htid
        rcases List.mem_append.mp htid with htid | htid
        · have := htemps fr (by rw [hstk]; exact List.mem_cons_self _ _) tid htid
          omega
        · simp at htid; omega
      · have := htemps fr' (by rw [hstk]; exact List.mem_cons_of_mem _ hfr') tid htid
        omega
  · rw [hstk', hstk]; rfl

theorem blank_ok_flat {nm : String} {mats : List String} {st : SceneState}
    {i : Nat} {st' : SceneState} (h : blank nm mats st = .ok (i, st')) :
    FlatStep st st' := by
  obtain ⟨hi, hnid, hids, hmats, fr, rest, hstk, hstk'⟩ := blank_ok_shape h
  refine ⟨by omega, ?_, ?_, ?_⟩
  · intro j hj
    rw [hids] at hj
    rcases List.mem_append.mp hj with hj | hj
    · exact Or.inl hj
    · simp at hj; omega
  · rintro ⟨hnd, hbound, htemps⟩
    refine ⟨?_, ?_, ?_⟩
    · rw [hids, List.nodup_append]
      refine ⟨hnd, List.nodup_singleton _, ?_⟩
      intro a ha hb
      simp at hb
      subst hb
      have := hbound _ ha
      omega
    · intro j hj
      rw [hids] at hj
      rw [hnid]
      rcases List.mem_append.mp hj with hj | hj
      · have := hbound _ hj; omega
      · simp at hj; omega
    · intro fr' hfr' tid htid
      rw [hnid]
      rw [hstk'] at hfr'
      rcases List.mem_cons.mp hfr' with hfr' | hfr'
      · subst hfr'
        simp only [] at htid
        rcases List.mem_append.mp htid with htid | htid
        · have := htemps fr (by rw [hstk]; exact List.mem_cons_self _ _) tid htid
          omega
        · simp at htid; omega
      · have := htemps fr' (by rw [hstk]; exact List.mem_cons_of_mem _ hfr') tid htid
        omega
  · rw [hstk', hstk]; rfl

theorem material_ok_flat {nm : String} {color : Rat × Rat × Rat × Rat}
    {m : Rat} {st : SceneState} {full : String} {st' : SceneState}
    (h : material nm color m st = .ok (full, st')) : FlatStep st st' := by
  obtain ⟨hobj, hstk, hnid, _⟩ := material_ok_shape h
  refine ⟨by omega, ?_, ?_, ?_⟩
  · intro j hj
    rw [hobj] at hj
    exact Or.inl hj
  · rintro ⟨hnd, hbound, htemps⟩
    refine ⟨by rw [hobj]; exact hnd, ?_, ?_⟩
    · intro j hj
      rw [hobj] at hj
      rw [hnid]
      exact hbound j hj
    · intro fr hfr tid htid
      rw [hnid]
      exact htemps fr (by rwa [hstk] at hfr) tid htid
  · rw [hstk]

theorem boolean_inl_shape {op : String} {i : Nat} {mat : Option String}
    {t : TArgs} {st st' : SceneState}
    (h : boolean op (.inl i) mat t st = .ok st') :
    ∃ fr rest, st.stack = fr :: rest ∧
      st' = { st with
        objects := updateObjList st.objects i (fun o =>
          { o with
            location := overrideAxes t.p t.px t.py t.pz
            rotation_euler := overrideAxes t.r t.rx t.ry t.rz
            scale := overrideAxes t.s t.sx t.sy t.sz })
        active_object := some fr.bpy_object
        selected := [] } := by
  unfold boolean at h
  dsimp only [] at h
  rw [updateObj_stack] at h
  split at h
  · simp at h
  · rename_i fr tail hstk
    rw [Except.ok.injEq] at h
    exact ⟨fr, tail, hstk, h.symm⟩

theorem updateObjList_flat {st : SceneState} (i : Nat) (f : Obj → Obj)
    (hf : ∀ o, (f o).id = o.id) (ao : Option Nat) (sel : List Nat) :
    FlatStep st { st with
      objects := updateObjList st.objects i f
      active_object := ao
      selected := sel } := by
  have hids : idsOf (updateObjList st.objects i f) = idsOf st.objects :=
    idsOf_updateObjList _ _ _ hf
  refine ⟨le_refl _, ?_, ?_, rfl⟩
  · intro j hj
    rw [show idsOf (({ st with
      objects := updateObjList st.objects i f
      active_object := ao
      selected := sel } : SceneState)).objects =
        idsOf st.objects from hids] at hj
    exact Or.inl hj
  · rintro ⟨hnd, hbound, htemps⟩
    exact ⟨by rw [show idsOf (({ st with
        objects := updateObjList st.objects i f
        active_object := ao
        selected := sel } : SceneState)).objects =
          idsOf st.objects from hids]; exact hnd,
      by intro j hj
         rw [show idsOf (({ st with
           objects := updateObjList st.objects i f
           active_object := ao
           selected := sel } : SceneState)).objects =
             idsOf st.objects from hids] at hj
         exact hbound j hj,
      fun fr hfr tid htid => htemps fr hfr tid htid⟩

theorem boolean_ok_flat {op : String} {target : Sum Nat String}
    {mat : Option String} {t : TArgs} {st st' : SceneState}
    (h : boolean op target mat t st = .ok st') : FlatStep st st' := by
  cases target with
  | inl i =>
    obtain ⟨fr, rest, hstk, hst⟩ := boolean_inl_shape h
    subst hst
    exact updateObjList_flat i (fun o =>
      { o with
        location := overrideAxes t.p t.px t.py t.pz
        rotation_euler := overrideAxes t.r t.rx t.ry t.rz
        scale := overrideAxes t.s t.sx t.sy t.sz }) (fun o => rfl) _ _
  | inr kind =>
    unfold boolean at h
    dsimp only [] at h
    cases hp : prim kind mat {} st with
    | error e => rw [hp] at h; simp at h
    | ok pr =>
      obtain ⟨mid, st1⟩ := pr
      rw [hp] at h
      have h' : boolean op (.inl mid) mat t st1 = .ok st' := h
      obtain ⟨fr, rest, hstk, hst⟩ := boolean_inl_shape h'
      subst hst
      exact flatStep_trans (prim_ok_flat hp)
        (updateObjList_flat mid (fun o =>
          { o with
            location := overrideAxes t.p t.px t.py t.pz
            rotation_euler := overrideAxes t.r t.rx t.ry t.rz
            scale := overrideAxes t.s t.sx t.sy t.sz }) (fun o => rfl) _ _)

theorem instanceOp_inl_shape {nm : String} {i : Nat} {mat : Option String}
    {t : TArgs} {st st' : SceneState}
    (h : instanceOp nm (.inl i) mat t st = .ok st') :
    ∃ fr rest srcObj base, st.stack = fr :: rest ∧
      getObj st.objects i = some srcObj ∧
      getObj st.objects fr.bpy_object = some base ∧
      st' = { st with
        objects := st.objects ++ [{ srcObj with
          id := st.next_id
          name := base.name ++ "." ++ nm
          parent := some fr.bpy_object
          location := overrideAxes t.p t.px t.py t.pz
          rotation_euler := overrideAxes t.r t.rx t.ry t.rz
          scale := overrideAxes t.s t.sx t.sy t.sz }]
        next_id := st.next_id + 1 } := by
  unfold instanceOp at h
  dsimp only [] at h
  split at h
  · simp at h
  · rename_i srcObj hsrc
    split at h
    · simp at h
    · rename_i fr tail hstk
      split at h
      · simp at h
      · rename_i pre hpre
        obtain ⟨fr2, rest2, base, hstk2, hbase, hpre'⟩ := get_name_prefix_ok hpre
        rw [hstk] at hstk2
        obtain ⟨hA, hB⟩ : fr = fr2 ∧ tail = rest2 := by
          injection hstk2 with ha hb; exact ⟨ha, hb⟩
        subst hA
        subst hB
        subst hpre'
        rw [Except.ok.injEq] at h
        exact ⟨fr, tail, srcObj, base, hstk, hsrc, hbase, h.symm⟩

theorem append_fresh_flat (st : SceneState) (cp : Obj)
    (hid : cp.id = st.next_id) :
    FlatStep st { st with
      objects := st.objects ++ [cp]
      next_id := st.next_id + 1 } := by
  have hids : idsOf (st.objects ++ [cp]) = idsOf st.objects ++ [cp.id] := by
    rw [idsOf_append]; rfl
  refine ⟨Nat.le_succ _, ?_, ?_, rfl⟩
  · intro j hj
    have hj' : j ∈ idsOf (st.objects ++ [cp]) := hj
    rw [hids] at hj'
    rcases List.mem_append.mp hj' with hj' | hj'
    · exact Or.inl hj'
    · simp at hj'
      subst hj'
      rw [hid]
      exact Or.inr (Nat.le_refl _)
  · rintro ⟨hnd, hbound, htemps⟩
    refine ⟨?_, ?_, ?_⟩
    · show (idsOf (st.objects ++ [cp])).Nodup
      rw [hids, List.nodup_append]
      refine ⟨hnd, List.nodup_singleton _, ?_⟩
      intro a ha hb
      simp at hb
      subst hb
      have := hbound _ ha
      omega
    · intro j hj
      have hj' : j ∈ idsOf (st.objects ++ [cp]) := hj
      rw [hids] at hj'
      show j < st.next_id + 1
      rcases List.mem_append.mp hj' with hj' | hj'
      · have := hbound _ hj'; omega
      · simp at hj'; omega
    · intro fr hfr tid htid
      show tid < st.next_id + 1
      have := htemps fr hfr tid htid
      omega

theorem instanceOp_ok_flat {nm : String} {src : Sum Nat String}
    {mat : Option String} {t : TArgs} {st st' : SceneState}
    (h : instanceOp nm src mat t st = .ok st') : FlatStep st st' := by
  cases src with
  | inl i =>
    obtain ⟨fr, rest, srcObj, base, hstk, hsrc, hbase, hst⟩ :=
      instanceOp_inl_shape h
    subst hst
    exact append_fresh_flat st _ rfl
  | inr kind =>
    unfold instanceOp at h
    dsimp only [] at h
    cases hp : prim kind mat {} st with
    | error e => rw [hp] at h; simp at h
    | ok pr =>
      obtain ⟨mid, st1⟩ := pr
      rw [hp] at h
      have h' : instanceOp nm (.inl mid) mat t st1 = .ok st' := h
      obtain ⟨fr, rest, srcObj, base, hstk, hsrc, hbase, hst⟩ :=
        instanceOp_inl_shape h'
      subst hst
      exact flatStep_trans (prim_ok_flat hp) (append_fresh_flat st1 _ rfl)

theorem get_name_prefix_eval {st : SceneState} {fr : ParagenStackLayer}
    {rest : List ParagenStackLayer} {base : Obj}
    (hstk : st.stack = fr :: rest)
    (hbase : getObj st.objects fr.bpy_object = some base) :
    get_name_prefix st = .ok (base.name ++ ".") := by
  unfold get_name_prefix
  rw [hstk]
  simp only [hbase]

theorem instanceOp_inl_eval (nm : String) (mat : Option String) (t : TArgs)
    (st : SceneState) (i : Nat) (fr : ParagenStackLayer)
    (rest : List ParagenStackLayer) (srcObj base : Obj)
    (hstk : st.stack = fr :: rest)
    (hsrc : getObj st.objects i = some srcObj)
    (hbase : getObj st.objects fr.bpy_object = some base) :
    instanceOp nm (.inl i) mat t st = .ok { st with
      objects := st.objects ++ [{ srcObj with
        id := st.next_id
        name := base.name ++ "." ++ nm
        parent := some fr.bpy_object
        location := overrideAxes t.p t.px t.py t.pz
        rotation_euler := overrideAxes t.r t.rx t.ry t.rz
        scale := overrideAxes t.s t.sx t.sy t.sz }]
      next_id := st.next_id + 1 } := by
  unfold instanceOp
  dsimp only []
  rw [hsrc, hstk, get_name_prefix_eval hstk hbase]

theorem contextEnter_stack (objId : Nat) (st : SceneState) :
    (contextEnter objId st).stack = ⟨objId, []⟩ :: st.stack :=
  rfl

theorem contextEnter_next_id (objId : Nat) (st : SceneState) :
    (contextEnter objId st).next_id = st.next_id :=
  rfl

theorem contextEnter_materials (objId : Nat) (st : SceneState) :
    (contextEnter objId st).materials = st.materials :=
  rfl

theorem contextEnter_ids (objId : Nat) (st : SceneState) :
    idsOf (contextEnter objId st).objects = idsOf st.objects :=
  idsOf_updateObjList _ _ _ (fun o => rfl)

theorem contextEnter_getObj (objId : Nat) (st : SceneState) (j : Nat) :
    getObj (contextEnter objId st).objects j =
      (getObj st.objects j).map (fun o =>
        if o.id == objId then { o with matrix_world := Mat.identity } else o) :=
  getObj_updateObjList _ _
    (fun o => { o with matrix_world := Mat.identity }) (fun o => rfl) j

theorem contextEnter_wf (objId : Nat) (st : SceneState) (h : HostWF st) :
    HostWF (contextEnter objId st) := by
  obtain ⟨hnd, hbound, htemps⟩ := h
  refine ⟨by rw [contextEnter_ids]; exact hnd, ?_, ?_⟩
  · intro j hj
    rw [contextEnter_ids] at hj
    rw [contextEnter_next_id]
    exact hbound j hj
  · intro fr hfr tid htid
    rw [contextEnter_stack] at hfr
    rw [contextEnter_next_id]
    rcases List.mem_cons.mp hfr with hfr | hfr
    · subst hfr; simp at htid
    · exact htemps fr hfr tid htid

theorem contextExit_ok_shape {objId : Nat} {saved : Mat} {st st' : SceneState}
    {popped : List Nat} (h : contextExit objId saved st = .ok (st', popped)) :
    ∃ fr rest, st.stack = fr :: rest ∧ popped = fr.temps ∧
      st'.stack = rest ∧ st'.next_id = st.next_id ∧
      st'.materials = st.materials ∧
      st'.objects = updateObjList
        (st.objects.filter (fun o => decide (o.name ∉ fr.temps.filterMap
          (fun tid => (getObj st.objects tid).map (fun o => o.name)))))
        objId (fun o => { o with matrix_world := saved }) := by
  unfold contextExit at h
  dsimp only [] at h
  split at h
  · simp at h
  · rename_i fr rest hstk
    rw [Except.ok.injEq, Prod.mk.injEq] at h
    obtain ⟨hst, hpop⟩ := h
    subst hst
    exact ⟨fr, rest, hstk, hpop.symm, rfl, rfl, rfl, rfl⟩

theorem getObj_some_id {l : List Obj} {i : Nat} {o : Obj}
    (h : getObj l i = some o) : o.id = i ∧ o ∈ l := by
  unfold getObj at h
  have h1 := List.find?_some h
  have h2 := List.mem_of_find?_eq_some h
  exact ⟨by simpa using h1, h2⟩

theorem contextExit_master {objId : Nat} {saved : Mat} {st st' : SceneState}
    {popped : List Nat} (hwf : HostWF st)
    (h : contextExit objId saved st = .ok (st', popped)) :
    HostWF st' ∧ st'.next_id = st.next_id ∧
    (∀ j ∈ idsOf st'.objects, j ∈ idsOf st.objects) ∧
    st'.stack.length + 1 = st.stack.length ∧
    (∀ tid ∈ popped, tid < st.next_id) ∧
    (∀ tid ∈ popped, tid ∉ idsOf st'.objects) := by
  obtain ⟨fr, rest, hstk, hpop, hstk', hnid, hmats, hobj⟩ :=
    contextExit_ok_shape h
  obtain ⟨hnd, hbound, htemps⟩ := hwf
  have hidsEq : idsOf st'.objects =
      idsOf (st.objects.filter (fun o => decide (o.name ∉ fr.temps.filterMap
        (fun tid => (getObj st.objects tid).map (fun o => o.name))))) := by
    rw [hobj]
    exact idsOf_updateObjList _ _ _ (fun o => rfl)
  have hsub : ∀ j ∈ idsOf st'.objects, j ∈ idsOf st.objects := by
    intro j hj
    rw [hidsEq] at hj
    obtain ⟨o, ho, hoid⟩ := (mem_idsOf _ _).mp hj
    exact (mem_idsOf _ _).mpr ⟨o, (List.mem_filter.mp ho).1, hoid⟩
  refine ⟨⟨?_, ?_, ?_⟩, hnid, hsub, ?_, ?_, ?_⟩
  · rw [hidsEq]
    exact List.Nodup.sublist ((List.filter_sublist _).map _) hnd
  · intro j hj
    rw [hnid]
    exact hbound j (hsub j hj)
  · intro fr' hfr' tid htid
    rw [hnid]
    refine htemps fr' ?_ tid htid
    rw [hstk]
    rw [hstk'] at hfr'
    exact List.mem_cons_of_mem _ hfr'
  · rw [hstk', hstk]; rfl
  · intro tid htid
    rw [hpop] at htid
    exact htemps fr (by rw [hstk]; exact List.mem_cons_self _ _) tid htid
  · intro tid htid hmem
    rw [hidsEq] at hmem
    obtain ⟨o, ho, hoid⟩ := (mem_idsOf _ _).mp hmem
    obtain ⟨hol, hoq⟩ := List.mem_filter.mp ho
    have hnotin := of_decide_eq_true hoq
    have hsome : (getObj st.objects tid).isSome := by
      unfold getObj
      rw [List.find?_isSome]
      exact ⟨o, hol, by simp [hoid]⟩
    obtain ⟨o₀, ho₀⟩ := Option.isSome_iff_exists.mp hsome
    obtain ⟨ho₀id, ho₀mem⟩ := getObj_some_id ho₀
    have hoeq : o = o₀ := by
      refine nodup_ids_inj hnd hol ho₀mem ?_
      rw [hoid, ho₀id]
    apply hnotin
    refine List.mem_filterMap.mpr ⟨tid, ?_, ?_⟩
    · rw [← hpop]; exact htid
    · rw [ho₀, hoeq]
      rfl

theorem paragenPre_stack (nm : String) (st : SceneState) :
    (paragenPre nm st).stack = st.stack := by
  unfold paragenPre; dsimp only []; split <;> rfl

theorem paragenPre_next_id (nm : String) (st : SceneState) :
    (paragenPre nm st).next_id = st.next_id := by
  unfold paragenPre; dsimp only []; split <;> rfl

theorem paragenPre_materials (nm : String) (st : SceneState) :
    (paragenPre nm st).materials = st.materials := by
  unfold paragenPre; dsimp only []; split <;> rfl

theorem paragenPre_objects_sub (nm : String) (st : SceneState) :
    ∀ o ∈ (paragenPre nm st).objects, o ∈ st.objects := by
  unfold paragenPre
  dsimp only []
  split
  · intro o ho; exact ho
  · intro o ho; exact (List.mem_filter.mp ho).1

theorem paragenPre_flat (nm : String) (st : SceneState) :
    FlatStep st (paragenPre nm st) := by
  have hsub : ∀ j ∈ idsOf (paragenPre nm st).objects, j ∈ idsOf st.objects := by
    intro j hj
    obtain ⟨o, ho, hoid⟩ := (mem_idsOf _ _).mp hj
    exact (mem_idsOf _ _).mpr ⟨o, paragenPre_objects_sub nm st o ho, hoid⟩
  refine ⟨by rw [paragenPre_next_id], fun j hj => Or.inl (hsub j hj), ?_,
    by rw [paragenPre_stack]⟩
  rintro ⟨hnd, hbound, htemps⟩
  refine ⟨?_, ?_, ?_⟩
  · show (idsOf (paragenPre nm st).objects).Nodup
    unfold paragenPre
    dsimp only []
    split
    · exact hnd
    · exact List.Nodup.sublist ((List.filter_sublist _).map _) hnd
  · intro j hj
    rw [paragenPre_next_id]
    exact hbound j (hsub j hj)
  · intro fr hfr tid htid
    rw [paragenPre_next_id]
    refine htemps fr ?_ tid htid
    rw [← paragenPre_stack nm st]
    exact hfr

theorem createRoot_fst (nm : String) (t : TArgs) (st : SceneState) :
    (createRoot nm t st).1 = st.next_id + 1 :=
  rfl

theorem createRoot_stack (nm : String) (t : TArgs) (st : SceneState) :
    (createRoot nm t st).2.stack = st.stack :=
  rfl

theorem createRoot_next_id (nm : String) (t : TArgs) (st : SceneState) :
    (createRoot nm t st).2.next_id = st.next_id + 2 :=
  rfl

theorem createRoot_materials (nm : String) (t : TArgs) (st : SceneState) :
    (createRoot nm t st).2.materials = st.materials :=
  rfl

theorem createRoot_objects (nm : String) (t : TArgs) (st : SceneState) :
    (createRoot nm t st).2.objects = st.objects ++
      [Obj.mk (st.next_id + 1) nm (overrideAxes t.p t.px t.py t.pz)
        (overrideAxes t.r t.rx t.ry t.rz) (overrideAxes t.s t.sx t.sy t.sz)
        Mat.identity none st.next_id] :=
  rfl

theorem createRoot_flat (nm : String) (t : TArgs) (st : SceneState) :
    FlatStep st (createRoot nm t st).2 := by
  refine ⟨by rw [createRoot_next_id]; omega, ?_, ?_, by rw [createRoot_stack]⟩
  · intro j hj
    rw [createRoot_objects, idsOf_append] at hj
    rcases List.mem_append.mp hj with hj | hj
    · exact Or.inl hj
    · simp [idsOf] at hj; omega
  · rintro ⟨hnd, hbound, htemps⟩
    refine ⟨?_, ?_, ?_⟩
    · rw [createRoot_objects, idsOf_append]
      rw [show idsOf [Obj.mk (st.next_id + 1) nm
          (overrideAxes t.p t.px t.py t.pz) (overrideAxes t.r t.rx t.ry t.rz)
          (overrideAxes t.s t.sx t.sy t.sz) Mat.identity none st.next_id] =
        [st.next_id + 1] from rfl]
      rw [List.nodup_append]
      refine ⟨hnd, List.nodup_singleton _, ?_⟩
      intro a ha hb
      simp at hb
      subst hb
      have := hbound _ ha
      omega
    · intro j hj
      rw [createRoot_objects, idsOf_append] at hj
      rw [createRoot_next_id]
      rcases List.mem_append.mp hj with hj | hj
      · have := hbound _ hj; omega
      · simp [idsOf] at hj; omega
    · intro fr hfr tid htid
      rw [createRoot_next_id]
      rw [createRoot_stack] at hfr
      have := htemps fr hfr tid htid
      omega

theorem master_of_flat {st st' : SceneState} (hw : HostWF st)
    (hf : FlatStep st st') :
    HostWF st' ∧ st.next_id ≤ st'.next_id ∧
    (∀ i ∈ idsOf st'.objects, i ∈ idsOf st.objects ∨ st.next_id ≤ i) ∧
    st'.stack.length = st.stack.length :=
  ⟨hf.2.2.1 hw, hf.1, hf.2.1, hf.2.2.2⟩

theorem interp_master (c : Cmd) (env : List Nat) (st : SceneState)
    (env' : List Nat) (st' : SceneState) (log : List Nat)
    (hw : HostWF st) (h : interp c env st = .ok (env', st', log)) :
    HostWF st' ∧ st.next_id ≤ st'.next_id ∧
    (∀ i ∈ idsOf st'.objects, i ∈ idsOf st.objects ∨ st.next_id ≤ i) ∧
    st'.stack.length = st.stack.length ∧
    (∀ t ∈ log, t < st'.next_id ∧ t ∉ idsOf st'.objects) := by
  induction c generalizing env st env' st' log with
  | skip =>
    simp only [interp] at h
    rw [Except.ok.injEq, Prod.mk.injEq, Prod.mk.injEq] at h
    obtain ⟨hA, hB, hC⟩ := h
    subst hA; subst hB; subst hC
    exact ⟨hw, Nat.le_refl _, fun i hi => Or.inl hi, rfl, by simp⟩
  | seq a b iha ihb =>
    simp only [interp] at h
    split at h
    · simp at h
    · rename_i e1 s1 l1 h1
      split at h
      · simp at h
      · rename_i e2 s2 l2 h2
        rw [Except.ok.injEq, Prod.mk.injEq, Prod.mk.injEq] at h
        obtain ⟨hA, hB, hC⟩ := h
        subst hA; subst hB; subst hC
        obtain ⟨A1, B1, C1, D1, E1⟩ := iha env st e1 s1 l1 hw h1
        obtain ⟨A2, B2, C2, D2, E2⟩ := ihb e1 s1 e2 s2 l2 A1 h2
        refine ⟨A2, Nat.le_trans B1 B2, ?_, D2.trans D1, ?_⟩
        · intro i hi
          rcases C2 i hi with hi' | hi'
          · rcases C1 i hi' with hi'' | hi''
            · exact Or.inl hi''
            · exact Or.inr hi''
          · exact Or.inr (Nat.le_trans B1 hi')
        · intro tid ht
          rcases List.mem_append.mp ht with ht | ht
          · obtain ⟨hlt, hnot⟩ := E1 tid ht
            refine ⟨Nat.lt_of_lt_of_le hlt B2, ?_⟩
            intro hmem
            rcases C2 tid hmem with hmem' | hmem'
            · exact hnot hmem'
            · omega
          · exact E2 tid ht
  | cprim kind mat targ =>
    simp only [interp] at h
    split at h
    · simp at h
    · rename_i i st1 hp
      rw [Except.ok.injEq, Prod.mk.injEq, Prod.mk.injEq] at h
      obtain ⟨hA, hB, hC⟩ := h
      subst hA; subst hB; subst hC
      obtain ⟨A, B, C, D⟩ := master_of_flat hw (prim_ok_flat hp)
      exact ⟨A, B, C, D, by simp⟩
  | cboolean op target mat targ =>
    simp only [interp] at h
    split at h
    · simp at h
    · rename_i tgt hres
      split at h
      · simp at h
      · rename_i st1 hbo
        rw [Except.ok.injEq, Prod.mk.injEq, Prod.mk.injEq] at h
        obtain ⟨hA, hB, hC⟩ := h
        subst hA; subst hB; subst hC
        obtain ⟨A, B, C, D⟩ := master_of_flat hw (boolean_ok_flat hbo)
        exact ⟨A, B, C, D, by simp⟩
  | cmaterial nm color m =>
    simp only [interp] at h
    split at h
    · simp at h
    · rename_i full st1 hm
      rw [Except.ok.injEq, Prod.mk.injEq, Prod.mk.injEq] at h
      obtain ⟨hA, hB, hC⟩ := h
      subst hA; subst hB; subst hC
      obtain ⟨A, B, C, D⟩ := master_of_flat hw (material_ok_flat hm)
      exact ⟨A, B, C, D, by simp⟩
  | cblank nm mats =>
    simp only [interp] at h
    split at h
    · simp at h
    · rename_i i st1 hb
      rw [Except.ok.injEq, Prod.mk.injEq, Prod.mk.injEq] at h
      obtain ⟨hA, hB, hC⟩ := h
      subst hA; subst hB; subst hC
      obtain ⟨A, B, C, D⟩ := master_of_flat hw (blank_ok_flat hb)
      exact ⟨A, B, C, D, by simp⟩
  | cinstance nm src mat targ =>
    simp only [interp] at h
    split at h
    · simp at h
    · rename_i s' hres
      split at h
      · simp at h
      · rename_i st1 hio
        rw [Except.ok.injEq, Prod.mk.injEq, Prod.mk.injEq] at h
        obtain ⟨hA, hB, hC⟩ := h
        subst hA; subst hB; subst hC
        obtain ⟨A, B, C, D⟩ := master_of_flat hw (instanceOp_ok_flat hio)
        exact ⟨A, B, C, D, by simp⟩
  | ccontext v body ih =>
    simp only [interp] at h
    split at h
    · simp at h
    · rename_i objId hv
      split at h
      · simp at h
      · rename_i e2 s2 l2 hb
        split at h
        · simp at h
        · rename_i s3 popped hx
          rw [Except.ok.injEq, Prod.mk.injEq, Prod.mk.injEq] at h
          obtain ⟨hA, hB, hC⟩ := h
          subst hA; subst hB; subst hC
          have hw1 : HostWF (contextEnter objId st) := contextEnter_wf objId st hw
          obtain ⟨A2, B2, C2, D2, E2⟩ :=
            ih env (contextEnter objId st) e2 s2 l2 hw1 hb
          obtain ⟨A3, N3, S3, L3, P3, G3⟩ := contextExit_master A2 hx
          have hnid1 : (contextEnter objId st).next_id = st.next_id :=
            contextEnter_next_id objId st
          have hlen1 : (contextEnter objId st).stack.length =
              st.stack.length + 1 := by
            rw [contextEnter_stack]; rfl
          refine ⟨A3, by omega, ?_, by omega, ?_⟩
          · intro i hi
            rcases C2 i (S3 i hi) with hi' | hi'
            · rw [contextEnter_ids] at hi'
              exact Or.inl hi'
            · right; omega
          · intro tid ht
            rcases List.mem_append.mp ht with ht | ht
            · obtain ⟨hlt, hnot⟩ := E2 tid ht
              exact ⟨by omega, fun hm => hnot (S3 tid hm)⟩
            · refine ⟨?_, G3 tid ht⟩
              have := P3 tid ht
              omega
  | cpgen nm targ body ih =>
    simp only [interp] at h
    split at h
    · simp at h
    · rename_i e2 s2 l2 hb
      split at h
      · simp at h
      · rename_i s3 popped hx
        rw [Except.ok.injEq, Prod.mk.injEq, Prod.mk.injEq] at h
        obtain ⟨hA, hB, hC⟩ := h
        subst hA; subst hB; subst hC
        have hw1 : HostWF (paragenPre nm st) := (paragenPre_flat nm st).2.2.1 hw
        have hw2 : HostWF (createRoot nm targ (paragenPre nm st)).2 :=
          (createRoot_flat nm targ _).2.2.1 hw1
        have hw3 : HostWF (contextEnter
            (createRoot nm targ (paragenPre nm st)).1
            (createRoot nm targ (paragenPre nm st)).2) :=
          contextEnter_wf _ _ hw2
        obtain ⟨A2, B2, C2, D2, E2⟩ := ih env _ e2 s2 l2 hw3 hb
        obtain ⟨A3, N3, S3, L3, P3, G3⟩ := contextExit_master A2 hx
        have f1 := paragenPre_flat nm st
        have f2 := createRoot_flat nm targ (paragenPre nm st)
        have hnidE : (contextEnter
            (createRoot nm targ (paragenPre nm st)).1
            (createRoot nm targ (paragenPre nm st)).2).next_id =
            (createRoot nm targ (paragenPre nm st)).2.next_id :=
          contextEnter_next_id _ _
        have hnid2 : (createRoot nm targ (paragenPre nm st)).2.next_id =
            (paragenPre nm st).next_id + 2 := createRoot_next_id _ _ _
        have hnid1 : (paragenPre nm st).next_id = st.next_id :=
          paragenPre_next_id _ _
        have hlenE : (contextEnter
            (createRoot nm targ (paragenPre nm st)).1
            (createRoot nm targ (paragenPre nm st)).2).stack.length =
            (createRoot nm targ (paragenPre nm st)).2.stack.length + 1 := by
          rw [contextEnter_stack]; rfl
        have hlen2 : (createRoot nm targ (paragenPre nm st)).2.stack.length =
            (paragenPre nm st).stack.length := by
          rw [createRoot_stack]
        have hlen1 : (paragenPre nm st).stack.length = st.stack.length := by
          rw [paragenPre_stack]
        refine ⟨A3, by omega, ?_, by omega, ?_⟩
        · intro i hi
          rcases C2 i (S3 i hi) with hi' | hi'
          · rw [contextEnter_ids] at hi'
            rcases f2.2.1 i hi' with hi'' | hi''
            · rcases f1.2.1 i hi'' with h3 | h3
              · exact Or.inl h3
              · right; omega
            · right; omega
          · right; omega
        · intro tid ht
          rcases List.mem_append.mp ht with ht | ht
          · obtain ⟨hlt, hnot⟩ := E2 tid ht
            exact ⟨by omega, fun hm => hnot (S3 tid hm)⟩
          · refine ⟨?_, G3 tid ht⟩
            have := P3 tid ht
            omega

theorem contextExit_eval (objId : Nat) (saved : Mat) (st : SceneState)
    (fr : ParagenStackLayer) (rest : List ParagenStackLayer)
    (hstk : st.stack = fr :: rest) :
    ∃ st', contextExit objId saved st = .ok (st', fr.temps) ∧
      st'.stack = rest := by
  unfold contextExit
  dsimp only []
  rw [hstk]
  exact ⟨_, rfl, rfl⟩

theorem overrideAxes_getD (v : Vec3) (ox oy oz : Option Rat) :
    overrideAxes v ox oy oz = ⟨ox.getD v.x, oy.getD v.y, oz.getD v.z⟩ := by
  unfold overrideAxes setX setY setZ
  cases ox <;> cases oy <;> cases oz <;> rfl

theorem mem_updateObjList {l : List Obj} {i : Nat} {f : Obj → Obj} {o' : Obj}
    (h : o' ∈ updateObjList l i f) :
    ∃ o ∈ l, o' = if o.id == i then f o else o := by
  unfold updateObjList at h
  obtain ⟨o, ho, heq⟩ := List.mem_map.mp h
  exact ⟨o, ho, heq.symm⟩

theorem getObj_append_none {l : List Obj} {i : Nat}
    (h : getObj l i = none) (l₂ : List Obj) :
    getObj (l ++ l₂) i = getObj l₂ i := by
  unfold getObj at *
  rw [List.find?_append, h]
  rfl

theorem get_name_prefix_error_ne {st : SceneState} {e : Err}
    (h : get_name_prefix st = .error e) : e ≠ .assertionError := by
  unfold get_name_prefix at h
  split at h
  · rw [Except.error.injEq] at h
    subst h
    intro hc
    cases hc
  · split at h
    · rw [Except.error.injEq] at h
      subst h
      intro hc
      cases hc
    · simp at h

theorem prim_ok_objects {kind : String} {mat : Option String} {t : TArgs}
    {st : SceneState} {i : Nat} {st' : SceneState}
    (h : prim kind mat t st = .ok (i, st')) :
    st'.objects = updateObjList (st.objects ++
      [Obj.mk (st.next_id + 1) (kind ++ toString (st.next_id + 1))
        t.p t.r t.s Mat.identity none st.next_id])
      (st.next_id + 1) (fun o =>
        { o with
          location := overrideAxes o.location t.px t.py t.pz
          rotation_euler := overrideAxes o.rotation_euler t.rx t.ry t.rz
          scale := overrideAxes o.scale t.sx t.sy t.sz }) := by
  cases mat with
  | none =>
    simp only [prim] at h
    rw [updateObj_stack, create_primitive_stack] at h
    cases hstk : st.stack with
    | nil => rw [hstk] at h; simp at h
    | cons fr rest =>
      rw [hstk] at h
      rw [Except.ok.injEq, Prod.mk.injEq] at h
      obtain ⟨hi, hst⟩ := h
      subst hst
      rfl
  | some m =>
    simp only [prim] at h
    rw [appendMatToMesh_stack, updateObj_stack, create_primitive_stack] at h
    cases hstk : st.stack with
    | nil => rw [hstk] at h; simp at h
    | cons fr rest =>
      rw [hstk] at h
      rw [Except.ok.injEq, Prod.mk.injEq] at h
      obtain ⟨hi, hst⟩ := h
      subst hst
      show (appendMatToMesh _ _ _).objects = _
      rw [appendMatToMesh_objects]
      rfl

/-- Claim C1, counterexample: a build routine that raises inside the scoped
context leaves the frame pushed on entry on the stack — the context manager
has no try/finally, so on an exception the stack length is NOT restored,
refuting the claim's "whether normal or by exception" part at this input. -/
theorem paragen_context_unbalanced_on_raise :
    runParagenContext 0 raisingBody initState =
      .error (.userError, contextEnter 0 initState) ∧
    (contextEnter 0 initState).stack.length = initState.stack.length + 1 :=
  ⟨rfl, rfl⟩

/-- Claim C1 (amended): for a build routine run inside the scoped context
that returns NORMALLY (and leaves the stack depth as it found it, as every
balanced routine does), the frame pushed on entry is popped on exit and the
stack length is restored to its value before entry.  When the routine
raises, the cleanup after the yield never runs and the frame stays pushed
(see the counterexample). -/
theorem paragen_context_balanced_on_normal_exit (objId : Nat)
    (body : SceneState → PResult SceneState) (st st2 : SceneState)
    (h1 : body (contextEnter objId st) = .ok st2)
    (h2 : st2.stack.length = st.stack.length + 1) :
    ∃ st3 popped, runParagenContext objId body st = .ok (st3, popped) ∧
      st3.stack.length = st.stack.length := by
  cases hstk : st2.stack with
  | nil => rw [hstk] at h2; simp at h2
  | cons fr rest =>
    obtain ⟨st3, hx, hstk3⟩ :=
      contextExit_eval objId (getMatrix st objId) st2 fr rest hstk
    refine ⟨st3, fr.temps, ?_, ?_⟩
    · unfold runParagenContext
      rw [h1]
      exact hx
    · rw [hstk3]
      rw [hstk] at h2
      simp at h2
      omega

theorem paragen_context_balanced_on_normal_exit_w :
    ∃ st3 popped, runParagenContext 0 idBody initState = .ok (st3, popped) ∧
      st3.stack.length = initState.stack.length :=
  paragen_context_balanced_on_normal_exit 0 idBody initState
    (contextEnter 0 initState) rfl rfl

/-- Claim C2: after a Model Builder (paragen-decorated) call returns
normally, no object remains in the scene that was registered as a temporary
(via prim or blank) in any frame popped during that call: each pop deletes
every object in the popped frame's temporaries list, and the accumulated
log of all popped temporaries is disjoint from the surviving scene. -/
theorem model_builder_cleans_all_popped_temps (nm : String) (t : TArgs)
    (body : Cmd) (env env' : List Nat) (st st' : SceneState) (log : List Nat)
    (hwf : HostWF st)
    (h : interp (Cmd.cpgen nm t body) env st = .ok (env', st', log)) :
    ∀ tid ∈ log, tid ∉ idsOf st'.objects :=
  fun tid htid =>
    ((interp_master _ env st env' st' log hwf h).2.2.2.2 tid htid).2

theorem model_builder_cleans_all_popped_temps_w :
    3 ∈ progWLog ∧ 3 ∉ idsOf progWSt.objects :=
  ⟨by decide,
    model_builder_cleans_all_popped_temps "Root" {}
      (Cmd.seq (Cmd.cprim "cube" none {}) (Cmd.cblank "Tmp" [])) [] progWEnv
      initState progWSt progWLog (by decide) rfl 3 (by decide)⟩

/-- Claim C9: the Material Registry's `assert 0 <= metallic <= 1` fires for
every metallic outside [0,1] and runs before any mutation — the error state
is exactly the input state, so the material collection and the active
object's material slots are unchanged — and the default metallic = 0 can
never produce an assertion failure. -/
theorem material_metallic_assert_guards_state (st : SceneState) (nm : String)
    (color : Rat × Rat × Rat × Rat) (m : Rat) :
    (¬ (0 ≤ m ∧ m ≤ 1) → material nm color m st = .error (.assertionError, st)) ∧
    (∀ e st', material nm color 0 st = .error (e, st') → e ≠ .assertionError) := by
  constructor
  · intro hm
    unfold material
    rw [if_neg hm]
  · intro e st' he
    unfold material at he
    rw [if_pos (by norm_num : (0:Rat) ≤ 0 ∧ (0:Rat) ≤ 1)] at he
    split at he
    · rename_i err hpre
      rw [Except.error.injEq, Prod.mk.injEq] at he
      obtain ⟨h1, -⟩ := he
      rw [← h1]
      exact get_name_prefix_error_ne hpre
    · rename_i pre hpre
      dsimp only [] at he
      split at he
      · rw [Except.error.injEq, Prod.mk.injEq] at he
        obtain ⟨h1, -⟩ := he
        rw [← h1]
        intro hc
        cases hc
      · simp at he

theorem material_metallic_assert_guards_state_w :
    (material "M" (0, 0, 0, 1) 2 initState =
      .error (.assertionError, initState)) ∧
    Err.indexError ≠ Err.assertionError :=
  ⟨(material_metallic_assert_guards_state initState "M" (0, 0, 0, 1) 2).1
      (by norm_num),
    (material_metallic_assert_guards_state initState "M" (0, 0, 0, 1) 2).2
      .indexError initState rfl⟩

theorem paragenPre_objects_eval {nm : String} {st : SceneState} {old : Obj}
    (hold : st.objects.find? (fun o => o.name == nm) = some old) :
    (paragenPre nm st).objects = st.objects.filter (fun o =>
      decide (o.id ∉ old.id ::
        (st.objects.filter (fun o => o.parent == some old.id)).map
          (fun o => o.id))) := by
  unfold paragenPre
  dsimp only []
  rw [hold]

/-- Claim C5: when a Model Builder is invoked with name N and an object
named N already exists, the pre-delete step run before the new root is
created (paragen.py lines 249-253, embedded as paragenPre, which the
builder's interpretation applies before createRoot) removes that object and
every one of its children from the scene, so no two invocations under the
same root name leave colliding objects. -/
theorem builder_predelete_removes_old_and_children
    (nm : String) (st : SceneState) (old : Obj)
    (hnames : (st.objects.map (fun o => o.name)).Nodup)
    (hold : st.objects.find? (fun o => o.name == nm) = some old) :
    ∀ o ∈ st.objects, (o.name = nm ∨ o.parent = some old.id) →
      o ∉ (paragenPre nm st).objects := by
  intro o ho hcase hmem
  rw [paragenPre_objects_eval hold] at hmem
  obtain ⟨-, hq⟩ := List.mem_filter.mp hmem
  have hq' := of_decide_eq_true hq
  apply hq'
  rcases hcase with hnm | hpar
  · have holdmem : old ∈ st.objects := List.mem_of_find?_eq_some hold
    have holdname : old.name = nm := by simpa using List.find?_some hold
    have heq : o = old :=
      List.inj_on_of_nodup_map hnames ho holdmem (by rw [hnm, holdname])
    rw [heq]
    exact List.mem_cons_self _ _
  · refine List.mem_cons_of_mem _ ?_
    exact List.mem_map.mpr ⟨o, List.mem_filter.mpr ⟨ho, by simp [hpar]⟩, rfl⟩

theorem builder_predelete_removes_old_and_children_w :
    childW ∉ (paragenPre "T" oldState).objects :=
  builder_predelete_removes_old_and_children "T" oldState oldRootW
    (by decide) rfl childW (by decide) (Or.inr rfl)

/-- Claim C6: calling any composition primitive — prim, boolean (and its
union/difference wrappers), material, blank, or instance — while the Build
Context Stack is empty raises an exception rather than silently doing
nothing. -/
theorem primitives_error_on_empty_stack (st : SceneState)
    (h : st.stack = []) :
    (∀ kind mat t, (prim kind mat t st).isOk = false) ∧
    (∀ op target mat t, (boolean op target mat t st).isOk = false) ∧
    (∀ target mat t, (union target mat t st).isOk = false) ∧
    (∀ target mat t, (difference target mat t st).isOk = false) ∧
    (∀ nm color m, (material nm color m st).isOk = false) ∧
    (∀ nm mats, (blank nm mats st).isOk = false) ∧
    (∀ nm src mat t, (instanceOp nm src mat t st).isOk = false) := by
  have hprim : ∀ kind mat t, (prim kind mat t st).isOk = false := by
    intro kind mat t
    cases hp : prim kind mat t st with
    | error e => rfl
    | ok pr =>
      obtain ⟨-, -, -, -, fr, rest, hstk, -⟩ := prim_ok_shape hp
      rw [h] at hstk
      simp at hstk
  have hbool : ∀ op target mat t, (boolean op target mat t st).isOk = false := by
    intro op target mat t
    cases hb : boolean op target mat t st with
    | error e => rfl
    | ok st' =>
      cases target with
      | inl i =>
        obtain ⟨fr, rest, hstk, -⟩ := boolean_inl_shape hb
        rw [h] at hstk
        simp at hstk
      | inr kind =>
        unfold boolean at hb
        dsimp only [] at hb
        cases hp : prim kind mat {} st with
        | error e => rw [hp] at hb; simp at hb
        | ok pr =>
          obtain ⟨-, -, -, -, fr, rest, hstk, -⟩ := prim_ok_shape hp
          rw [h] at hstk
          simp at hstk
  refine ⟨hprim, hbool, ?_, ?_, ?_, ?_, ?_⟩
  · intro target mat t
    exact hbool "UNION" target mat t
  · intro target mat t
    exact hbool "DIFFERENCE" target mat t
  · intro nm color m
    cases hm : material nm color m st with
    | error e => rfl
    | ok pr =>
      obtain ⟨pr1, pr2⟩ := pr
      obtain ⟨-, -, -, fr, rest, base, hstk, -⟩ := material_ok_shape hm
      rw [h] at hstk
      simp at hstk
  · intro nm mats
    cases hb : blank nm mats st with
    | error e => rfl
    | ok pr =>
      obtain ⟨pr1, pr2⟩ := pr
      obtain ⟨-, -, -, -, fr, rest, hstk, -⟩ := blank_ok_shape hb
      rw [h] at hstk
      simp at hstk
  · intro nm src mat t
    cases hi : instanceOp nm src mat t st with
    | error e => rfl
    | ok st' =>
      cases src with
      | inl i =>
        obtain ⟨fr, rest, srcObj, base, hstk, -⟩ := instanceOp_inl_shape hi
        rw [h] at hstk
        simp at hstk
      | inr kind =>
        unfold instanceOp at hi
        dsimp only [] at hi
        cases hp : prim kind mat {} st with
        | error e => rw [hp] at hi; simp at hi
        | ok pr =>
          obtain ⟨-, -, -, -, fr, rest, hstk, -⟩ := prim_ok_shape hp
          rw [h] at hstk
          simp at hstk

theorem primitives_error_on_empty_stack_w :
    ((prim "cube" none {} initState).isOk = false) ∧
    ((boolean "UNION" (.inl 0) none {} initState).isOk = false) ∧
    ((union (.inr "cube") none {} initState).isOk = false) ∧
    ((difference (.inl 0) none {} initState).isOk = false) ∧
    ((material "M" (1, 1, 1, 1) 0 initState).isOk = false) ∧
    ((blank "B" [] initState).isOk = false) ∧
    ((instanceOp "I" (.inr "cube") none {} initState).isOk = false) := by
  obtain ⟨h1, h2, h3, h4, h5, h6, h7⟩ :=
    primitives_error_on_empty_stack initState rfl
  exact ⟨h1 "cube" none {}, h2 "UNION" (.inl 0) none {}, h3 (.inr "cube") none {},
    h4 (.inl 0) none {}, h5 "M" (1, 1, 1, 1) 0, h6 "B" [], h7 "I" (.inr "cube") none {}⟩

theorem material_eval {st : SceneState} {fr : ParagenStackLayer}
    {rest : List ParagenStackLayer} {base : Obj}
    (nm : String) (color : Rat × Rat × Rat × Rat) (m : Rat)
    (hstk : st.stack = fr :: rest)
    (hbase : getObj st.objects fr.bpy_object = some base)
    (hm : 0 ≤ m ∧ m ≤ 1) :
    material nm color m st = .ok (base.name ++ "." ++ nm,
      appendMatToMesh { st with materials :=
        (if st.materials.any (fun x => x.name == base.name ++ "." ++ nm)
          then st.materials.eraseP (fun x => x.name == base.name ++ "." ++ nm)
          else st.materials) ++
          [Material.mk (base.name ++ "." ++ nm) color m] }
        fr.bpy_object (base.name ++ "." ++ nm)) := by
  unfold material
  rw [if_pos hm, get_name_prefix_eval hstk hbase]
  dsimp only []
  rw [hstk]

/-- Claim C4: calling the Material Registry twice with the same name inside
the same frame leaves exactly one material of that full name in the
material collection — its base color and metallic values are the second
call's — because the second call destroys the first-created material of
that full name before creating the replacement. -/
theorem material_redefinition_idempotent
    (st : SceneState) (fr : ParagenStackLayer) (rest : List ParagenStackLayer)
    (base : Obj) (nm : String) (c1 c2 : Rat × Rat × Rat × Rat) (m1 m2 : Rat)
    (hstk : st.stack = fr :: rest)
    (hbase : getObj st.objects fr.bpy_object = some base)
    (hm1 : 0 ≤ m1 ∧ m1 ≤ 1) (hm2 : 0 ≤ m2 ∧ m2 ≤ 1)
    (hcount : st.materials.countP
      (fun x => x.name == base.name ++ "." ++ nm) ≤ 1) :
    ∃ st1 st2,
      material nm c1 m1 st = .ok (base.name ++ "." ++ nm, st1) ∧
      material nm c2 m2 st1 = .ok (base.name ++ "." ++ nm, st2) ∧
      st2.materials.filter (fun x => x.name == base.name ++ "." ++ nm) =
        [Material.mk (base.name ++ "." ++ nm) c2 m2] := by
  have h1 := material_eval nm c1 m1 hstk hbase hm1
  have hstk1 : (appendMatToMesh { st with materials :=
      (if st.materials.any (fun x => x.name == base.name ++ "." ++ nm)
        then st.materials.eraseP (fun x => x.name == base.name ++ "." ++ nm)
        else st.materials) ++
        [Material.mk (base.name ++ "." ++ nm) c1 m1] }
      fr.bpy_object (base.name ++ "." ++ nm)).stack = fr :: rest := by
    rw [appendMatToMesh_stack]
    exact hstk
  have hbase1 : getObj (appendMatToMesh { st with materials :=
      (if st.materials.any (fun x => x.name == base.name ++ "." ++ nm)
        then st.materials.eraseP (fun x => x.name == base.name ++ "." ++ nm)
        else st.materials) ++
        [Material.mk (base.name ++ "." ++ nm) c1 m1] }
      fr.bpy_object (base.name ++ "." ++ nm)).objects fr.bpy_object =
      some base := by
    rw [appendMatToMesh_objects]
    exact hbase
  have h2 := material_eval nm c2 m2 hstk1 hbase1 hm2
  refine ⟨_, _, h1, h2, ?_⟩
  have hmats1 : (appendMatToMesh { st with materials :=
      (if st.materials.any (fun x => x.name == base.name ++ "." ++ nm)
        then st.materials.eraseP (fun x => x.name == base.name ++ "." ++ nm)
        else st.materials) ++
        [Material.mk (base.name ++ "." ++ nm) c1 m1] }
      fr.bpy_object (base.name ++ "." ++ nm)).materials =
      (if st.materials.any (fun x => x.name == base.name ++ "." ++ nm)
        then st.materials.eraseP (fun x => x.name == base.name ++ "." ++ nm)
        else st.materials) ++
        [Material.mk (base.name ++ "." ++ nm) c1 m1] := by
    rw [appendMatToMesh_materials]
  rw [show (appendMatToMesh _ fr.bpy_object (base.name ++ "." ++ nm)).materials
      = _ from appendMatToMesh_materials _ _ _]
  rw [hmats1]
  rw [List.filter_append]
  have hcount0 : ((if st.materials.any
      (fun x => x.name == base.name ++ "." ++ nm)
      then st.materials.eraseP (fun x => x.name == base.name ++ "." ++ nm)
      else st.materials)).countP
      (fun x => x.name == base.name ++ "." ++ nm) = 0 := by
    rw [List.countP_eq_length_filter,
      filter_guarded_eraseP (fun x => x.name == base.name ++ "." ++ nm)
        st.materials hcount]
    rfl
  have hfilter1 : (if ((if st.materials.any
      (fun x => x.name == base.name ++ "." ++ nm)
      then st.materials.eraseP (fun x => x.name == base.name ++ "." ++ nm)
      else st.materials) ++
      [Material.mk (base.name ++ "." ++ nm) c1 m1]).any
        (fun x => x.name == base.name ++ "." ++ nm)
      then ((if st.materials.any (fun x => x.name == base.name ++ "." ++ nm)
        then st.materials.eraseP (fun x => x.name == base.name ++ "." ++ nm)
        else st.materials) ++
        [Material.mk (base.name ++ "." ++ nm) c1 m1]).eraseP
          (fun x => x.name == base.name ++ "." ++ nm)
      else ((if st.materials.any (fun x => x.name == base.name ++ "." ++ nm)
        then st.materials.eraseP (fun x => x.name == base.name ++ "." ++ nm)
        else st.materials) ++
        [Material.mk (base.name ++ "." ++ nm) c1 m1])).filter
      (fun x => x.name == base.name ++ "." ++ nm) = [] := by
    apply filter_guarded_eraseP
    rw [List.countP_append, hcount0]
    simp
  rw [hfilter1]
  simp

theorem material_redefinition_idempotent_w :
    ∃ st1 st2,
      material "M" (0, 0, 0, 1) 0 frameState = .ok ("Base.M", st1) ∧
      material "M" (1, 0, 0, 1) 1 st1 = .ok ("Base.M", st2) ∧
      st2.materials.filter (fun x => x.name == "Base.M") =
        [Material.mk "Base.M" (1, 0, 0, 1) 1] :=
  material_redefinition_idempotent frameState ⟨0, []⟩ [] baseObjW "M"
    (0, 0, 0, 1) (1, 0, 0, 1) 0 1 rfl rfl (by norm_num) (by norm_num)
    (by decide)

/-- Claim C3: for every call to prim, boolean, instance, or a
paragen-decorated builder (whose root transform is applied by createRoot)
that supplies both a whole-vector transform component and per-axis
overrides, the effective transform uses the per-axis value on each
overridden axis and the vector's value on the others — e.g. p = (1,2,3)
with px = 9 yields effective position (9,2,3). -/
theorem transform_per_axis_override_precedence
    (st : SceneState) (fr : ParagenStackLayer) (rest : List ParagenStackLayer)
    (t : TArgs) (hwf : HostWF st) (hstk : st.stack = fr :: rest) :
    (∀ kind mat i st', prim kind mat t st = .ok (i, st') →
      ∃ o, getObj st'.objects i = some o ∧
        o.location = ⟨t.px.getD t.p.x, t.py.getD t.p.y, t.pz.getD t.p.z⟩ ∧
        o.rotation_euler =
          ⟨t.rx.getD t.r.x, t.ry.getD t.r.y, t.rz.getD t.r.z⟩ ∧
        o.scale = ⟨t.sx.getD t.s.x, t.sy.getD t.s.y, t.sz.getD t.s.z⟩) ∧
    (∀ op i mat st' o, boolean op (.inl i) mat t st = .ok st' →
      getObj st.objects i = some o →
      ∃ o', getObj st'.objects i = some o' ∧
        o'.location = ⟨t.px.getD t.p.x, t.py.getD t.p.y, t.pz.getD t.p.z⟩ ∧
        o'.rotation_euler =
          ⟨t.rx.getD t.r.x, t.ry.getD t.r.y, t.rz.getD t.r.z⟩ ∧
        o'.scale = ⟨t.sx.getD t.s.x, t.sy.getD t.s.y, t.sz.getD t.s.z⟩) ∧
    (∀ nm i mat st' srcObj, instanceOp nm (.inl i) mat t st = .ok st' →
      getObj st.objects i = some srcObj →
      ∃ c, getObj st'.objects st.next_id = some c ∧
        c.location = ⟨t.px.getD t.p.x, t.py.getD t.p.y, t.pz.getD t.p.z⟩ ∧
        c.rotation_euler =
          ⟨t.rx.getD t.r.x, t.ry.getD t.r.y, t.rz.getD t.r.z⟩ ∧
        c.scale = ⟨t.sx.getD t.s.x, t.sy.getD t.s.y, t.sz.getD t.s.z⟩) ∧
    (∀ nm, ∃ o,
      getObj (createRoot nm t st).2.objects (createRoot nm t st).1 = some o ∧
        o.location = ⟨t.px.getD t.p.x, t.py.getD t.p.y, t.pz.getD t.p.z⟩ ∧
        o.rotation_euler =
          ⟨t.rx.getD t.r.x, t.ry.getD t.r.y, t.rz.getD t.r.z⟩ ∧
        o.scale = ⟨t.sx.getD t.s.x, t.sy.getD t.s.y, t.sz.getD t.s.z⟩) := by
  obtain ⟨hnd, hbound, htemps⟩ := hwf
  have hfresh0 : st.next_id ∉ idsOf st.objects := by
    intro hmem
    have := hbound _ hmem
    omega
  have hfresh1 : st.next_id + 1 ∉ idsOf st.objects := by
    intro hmem
    have := hbound _ hmem
    omega
  refine ⟨?_, ?_, ?_, ?_⟩
  · intro kind mat i st' h
    obtain ⟨hi, -, -, -, -⟩ := prim_ok_shape h
    subst hi
    have hobj := prim_ok_objects h
    have hnew := getObj_append_fresh st.objects
      (Obj.mk (st.next_id + 1) (kind ++ toString (st.next_id + 1))
        t.p t.r t.s Mat.identity none st.next_id) hfresh1
    rw [hobj, getObj_updateObjList _ _ (fun o =>
      { o with
        location := overrideAxes o.location t.px t.py t.pz
        rotation_euler := overrideAxes o.rotation_euler t.rx t.ry t.rz
        scale := overrideAxes o.scale t.sx t.sy t.sz }) (fun o => rfl), hnew]
    refine ⟨_, rfl, ?_, ?_, ?_⟩ <;>
      simp [overrideAxes_getD]
  · intro op i mat st' o h ho
    obtain ⟨fr', rest', hstk', hst⟩ := boolean_inl_shape h
    subst hst
    have hoid := (getObj_some_id ho).1
    rw [show ({ st with
        objects := updateObjList st.objects i (fun o =>
          { o with
            location := overrideAxes t.p t.px t.py t.pz
            rotation_euler := overrideAxes t.r t.rx t.ry t.rz
            scale := overrideAxes t.s t.sx t.sy t.sz })
        active_object := some fr'.bpy_object
        selected := [] } : SceneState).objects =
      updateObjList st.objects i (fun o =>
        { o with
          location := overrideAxes t.p t.px t.py t.pz
          rotation_euler := overrideAxes t.r t.rx t.ry t.rz
          scale := overrideAxes t.s t.sx t.sy t.sz }) from rfl]
    rw [getObj_updateObjList _ _ (fun o =>
      { o with
        location := overrideAxes t.p t.px t.py t.pz
        rotation_euler := overrideAxes t.r t.rx t.ry t.rz
        scale := overrideAxes t.s t.sx t.sy t.sz }) (fun o => rfl), ho]
    have hif : (o.id == i) = true := by simp [hoid]
    refine ⟨_, rfl, ?_, ?_, ?_⟩ <;>
      simp [hif, overrideAxes_getD]
  · intro nm i mat st' srcObj h hsrc
    obtain ⟨fr', rest', srcObj', base, hstk', hsrc', hbase, hst⟩ :=
      instanceOp_inl_shape h
    subst hst
    have hcp := getObj_append_fresh st.objects
      ({ srcObj' with
        id := st.next_id
        name := base.name ++ "." ++ nm
        parent := some fr'.bpy_object
        location := overrideAxes t.p t.px t.py t.pz
        rotation_euler := overrideAxes t.r t.rx t.ry t.rz
        scale := overrideAxes t.s t.sx t.sy t.sz }) hfresh0
    refine ⟨_, hcp, ?_, ?_, ?_⟩ <;> simp [overrideAxes_getD]
  · intro nm
    have hnew := getObj_append_fresh st.objects
      (Obj.mk (st.next_id + 1) nm (overrideAxes t.p t.px t.py t.pz)
        (overrideAxes t.r t.rx t.ry t.rz) (overrideAxes t.s t.sx t.sy t.sz)
        Mat.identity none st.next_id) hfresh1
    rw [createRoot_objects, createRoot_fst]
    refine ⟨_, hnew, ?_, ?_, ?_⟩ <;> simp [overrideAxes_getD]

theorem transform_per_axis_override_precedence_w :
    (∃ o, getObj w3pSt.objects w3pId = some o ∧
      o.location = ⟨9, 2, 3⟩ ∧ o.rotation_euler = ⟨0, 0, 0⟩ ∧
      o.scale = ⟨1, 1, 1⟩) ∧
    (∃ o', getObj w3bSt.objects 0 = some o' ∧
      o'.location = ⟨9, 2, 3⟩ ∧ o'.rotation_euler = ⟨0, 0, 0⟩ ∧
      o'.scale = ⟨1, 1, 1⟩) ∧
    (∃ c, getObj w3iSt.objects 4 = some c ∧
      c.location = ⟨9, 2, 3⟩ ∧ c.rotation_euler = ⟨0, 0, 0⟩ ∧
      c.scale = ⟨1, 1, 1⟩) ∧
    (∃ o, getObj (createRoot "R" t3 frameState).2.objects
        (createRoot "R" t3 frameState).1 = some o ∧
      o.location = ⟨9, 2, 3⟩ ∧ o.rotation_euler = ⟨0, 0, 0⟩ ∧
      o.scale = ⟨1, 1, 1⟩) := by
  obtain ⟨T1, T2, -, T4⟩ :=
    transform_per_axis_override_precedence frameState ⟨0, []⟩ [] t3
      (by decide) rfl
  obtain ⟨-, -, S3, -⟩ :=
    transform_per_axis_override_precedence srcState ⟨0, []⟩ [] t3
      (by decide) rfl
  exact ⟨T1 "cube" none w3pId w3pSt rfl,
    T2 "UNION" 0 none w3bSt baseObjW rfl rfl,
    S3 "Inst" 2 none w3iSt srcObjW rfl rfl, T4 "R"⟩

/-- Claim C7: pushing a frame for an object captures its current world
transform and resets the object's world matrix to the identity for the
duration of the frame (the build routine body observes the identity), and
popping the frame on normal exit restores the captured world transform, so
after a matched push/pop pair the object's world transform equals its value
before the push. -/
theorem paragen_context_matrix_capture_restore
    (objId : Nat) (body : SceneState → PResult SceneState)
    (st st2 st3 : SceneState) (popped : List Nat) (o0 o2 : Obj)
    (fr : ParagenStackLayer) (rest : List ParagenStackLayer)
    (h0 : getObj st.objects objId = some o0)
    (hb : body (contextEnter objId st) = .ok st2)
    (hrun : runParagenContext objId body st = .ok (st3, popped))
    (hstk2 : st2.stack = fr :: rest)
    (h2 : getObj st2.objects objId = some o2)
    (hname : o2.name ∉ fr.temps.filterMap (fun tid =>
      (getObj st2.objects tid).map (fun o => o.name))) :
    (∃ oE, getObj (contextEnter objId st).objects objId = some oE ∧
      oE.matrix_world = Mat.identity) ∧
    (∃ o3, getObj st3.objects objId = some o3 ∧
      o3.matrix_world = o0.matrix_world) := by
  have hid0 : (o0.id == objId) = true := by
    simp [(getObj_some_id h0).1]
  constructor
  · rw [contextEnter_getObj, h0]
    refine ⟨_, rfl, ?_⟩
    simp only [Option.map_some']
    rw [if_pos hid0]
  · unfold runParagenContext at hrun
    rw [hb] at hrun
    have hrun' : contextExit objId (getMatrix st objId) st2 =
        .ok (st3, popped) := hrun
    obtain ⟨fr', rest', hstk', hpop, hstk3, hnid, hmats, hobj⟩ :=
      contextExit_ok_shape hrun'
    rw [hstk2] at hstk'
    obtain ⟨hA, hB⟩ : fr = fr' ∧ rest = rest' := by
      injection hstk' with ha hb'
      exact ⟨ha, hb'⟩
    subst hA
    subst hB
    have hsaved : getMatrix st objId = o0.matrix_world := by
      unfold getMatrix
      rw [h0]
    have hq : (decide (o2.name ∉ fr.temps.filterMap (fun tid =>
        (getObj st2.objects tid).map (fun o => o.name)))) = true :=
      decide_eq_true hname
    have hfind : (st2.objects.filter (fun o => decide (o.name ∉
        fr.temps.filterMap (fun tid =>
          (getObj st2.objects tid).map (fun o => o.name))))).find?
        (fun o => o.id == objId) = some o2 := find?_filter h2 hq
    have hfind2 : getObj (st2.objects.filter (fun o => decide (o.name ∉
        fr.temps.filterMap (fun tid =>
          (getObj st2.objects tid).map (fun o => o.name)))))
        objId = some o2 := hfind
    have hid2 : (o2.id == objId) = true := by
      simp [(getObj_some_id h2).1]
    rw [hobj, getObj_updateObjList _ _
      (fun o => { o with matrix_world := getMatrix st objId })
      (fun o => rfl) objId, hfind2]
    refine ⟨_, rfl, ?_⟩
    simp only [Option.map_some']
    rw [if_pos hid2]
    exact hsaved

theorem paragen_context_matrix_capture_restore_w :
    (∃ oE, getObj (contextEnter 0 frameState).objects 0 = some oE ∧
      oE.matrix_world = Mat.identity) ∧
    (∃ o3, getObj w7st.objects 0 = some o3 ∧
      o3.matrix_world = baseObjW.matrix_world) :=
  paragen_context_matrix_capture_restore 0 idBody frameState
    (contextEnter 0 frameState) w7st w7popped baseObjW
    { baseObjW with matrix_world := Mat.identity } ⟨0, []⟩ [⟨0, []⟩] rfl rfl
    rfl rfl rfl (by decide)

/-- Claim C8: for an existing scene object used as the source of instance,
any number of instance calls leaves the source's record — mesh data handle,
transform, name and parent — unchanged (the object list is extended only),
leaves all mesh data unchanged, creates one copy per call sharing the
source's mesh data handle, and gives each copy the transform of its own
call, independent of the source and of the other copies. -/
theorem instancing_preserves_source
    (st : SceneState) (fr : ParagenStackLayer) (rest : List ParagenStackLayer)
    (src : Nat) (srcObj base : Obj) (calls : List (String × TArgs))
    (hstk : st.stack = fr :: rest)
    (hbase : getObj st.objects fr.bpy_object = some base)
    (hsrc : getObj st.objects src = some srcObj) :
    (∀ cp ∈ expectedCopies srcObj fr.bpy_object (base.name ++ ".")
        st.next_id calls, cp.data = srcObj.data) ∧
    ∃ stF, runInstances src calls st = .ok stF ∧
      stF.objects = st.objects ++
        expectedCopies srcObj fr.bpy_object (base.name ++ ".")
          st.next_id calls ∧
      getObj stF.objects src = some srcObj ∧
      stF.meshes = st.meshes ∧
      stF.materials = st.materials ∧
      stF.stack = st.stack ∧
      stF.next_id = st.next_id + calls.length := by
  induction calls generalizing st with
  | nil =>
    refine ⟨by simp [expectedCopies], st, rfl, by simp [expectedCopies],
      hsrc, rfl, rfl, rfl, rfl⟩
  | cons c calls ih =>
    obtain ⟨nm, t⟩ := c
    have h1 := instanceOp_inl_eval nm none t st src fr rest srcObj base
      hstk hsrc hbase
    have hstk1 : ({ st with
        objects := st.objects ++ [{ srcObj with
          id := st.next_id
          name := base.name ++ "." ++ nm
          parent := some fr.bpy_object
          location := overrideAxes t.p t.px t.py t.pz
          rotation_euler := overrideAxes t.r t.rx t.ry t.rz
          scale := overrideAxes t.s t.sx t.sy t.sz }]
        next_id := st.next_id + 1 } : SceneState).stack = fr :: rest := hstk
    have hbase1 : getObj ({ st with
        objects := st.objects ++ [{ srcObj with
          id := st.next_id
          name := base.name ++ "." ++ nm
          parent := some fr.bpy_object
          location := overrideAxes t.p t.px t.py t.pz
          rotation_euler := overrideAxes t.r t.rx t.ry t.rz
          scale := overrideAxes t.s t.sx t.sy t.sz }]
        next_id := st.next_id + 1 } : SceneState).objects fr.bpy_object =
        some base := getObj_append_left hbase _
    have hsrc1 : getObj ({ st with
        objects := st.objects ++ [{ srcObj with
          id := st.next_id
          name := base.name ++ "." ++ nm
          parent := some fr.bpy_object
          location := overrideAxes t.p t.px t.py t.pz
          rotation_euler := overrideAxes t.r t.rx t.ry t.rz
          scale := overrideAxes t.s t.sx t.sy t.sz }]
        next_id := st.next_id + 1 } : SceneState).objects src =
        some srcObj := getObj_append_left hsrc _
    obtain ⟨ihdata, stF, ihrun, ihobj, ihsrc, ihmesh, ihmats, ihstk, ihnid⟩ :=
      ih _ hstk1 hbase1 hsrc1
    constructor
    · intro cp hcp
      rcases List.mem_cons.mp hcp with hcp | hcp
      · subst hcp; rfl
      · exact ihdata cp hcp
    · refine ⟨stF, ?_, ?_, ihsrc, ihmesh, ihmats, ihstk, ?_⟩
      · simp only [runInstances]
        rw [h1]
        exact ihrun
      · rw [ihobj]
        rw [show (({ st with
            objects := st.objects ++ [{ srcObj with
              id := st.next_id
              name := base.name ++ "." ++ nm
              parent := some fr.bpy_object
              location := overrideAxes t.p t.px t.py t.pz
              rotation_euler := overrideAxes t.r t.rx t.ry t.rz
              scale := overrideAxes t.s t.sx t.sy t.sz }]
            next_id := st.next_id + 1 } : SceneState)).objects =
          st.objects ++ [{ srcObj with
            id := st.next_id
            name := base.name ++ "." ++ nm
            parent := some fr.bpy_object
            location := overrideAxes t.p t.px t.py t.pz
            rotation_euler := overrideAxes t.r t.rx t.ry t.rz
            scale := overrideAxes t.s t.sx t.sy t.sz }] from rfl]
        rw [List.append_assoc]
        rfl
      · rw [ihnid]
        simp only [List.length_cons]
        show st.next_id + 1 + calls.length = st.next_id + (calls.length + 1)
        omega

theorem instancing_preserves_source_w :
    (∀ cp ∈ expectedCopies srcObjW 0 (baseObjW.name ++ ".") 4
        [("A", t3), ("B", {})], cp.data = srcObjW.data) ∧
    ∃ stF, runInstances 2 [("A", t3), ("B", {})] srcState = .ok stF ∧
      stF.objects = srcState.objects ++
        expectedCopies srcObjW 0 (baseObjW.name ++ ".") 4
          [("A", t3), ("B", {})] ∧
      getObj stF.objects 2 = some srcObjW ∧
      stF.meshes = srcState.meshes ∧
      stF.materials = srcState.materials ∧
      stF.stack = srcState.stack ∧
      stF.next_id = 4 + 2 :=
  instancing_preserves_source srcState ⟨0, []⟩ [] 2 srcObjW baseObjW
    [("A", t3), ("B", {})] rfl rfl rfl


/-- Claim C10: when instance is called with a primitive-kind string source
inside an active frame, the intermediate primitive is appended to the
current frame's temporaries — and is therefore deleted when that frame pops
— while the parented, renamed copy is never appended to any frame's
temporaries and so survives the frame's cleanup (the name hypotheses rule
out name collisions, which the host prevents by unique naming). -/
theorem instance_string_source_temp_registration
    (nm kind : String) (mat : Option String) (t : TArgs)
    (st st' : SceneState) (fr : ParagenStackLayer)
    (rest : List ParagenStackLayer) (base : Obj)
    (hwf : HostWF st)
    (hstk : st.stack = fr :: rest)
    (hbase : getObj st.objects fr.bpy_object = some base)
    (hfreshname : ∀ o ∈ st.objects, o.name ≠ base.name ++ "." ++ nm)
    (hprimname : base.name ++ "." ++ nm ≠ kind ++ toString (st.next_id + 1))
    (h : instanceOp nm (.inr kind) mat t st = .ok st') :
    st'.stack = ParagenStackLayer.mk fr.bpy_object
      (fr.temps ++ [st.next_id + 1]) :: rest ∧
    (∀ fr' ∈ st'.stack, st.next_id + 2 ∉ fr'.temps) ∧
    ∀ saved st'' popped,
      contextExit fr.bpy_object saved st' = .ok (st'', popped) →
      (st.next_id + 1) ∈ popped ∧
      (st.next_id + 1) ∉ idsOf st''.objects ∧
      (st.next_id + 2) ∈ idsOf st''.objects := by
  obtain ⟨hnd, hbound, htempsWF⟩ := hwf
  have hfresh1 : st.next_id + 1 ∉ idsOf st.objects := by
    intro hmem; have := hbound _ hmem; omega
  have hwf' : HostWF st' := (instanceOp_ok_flat h).2.2.1 ⟨hnd, hbound, htempsWF⟩
  unfold instanceOp at h
  dsimp only [] at h
  cases hp : prim kind mat {} st with
  | error e => rw [hp] at h; simp at h
  | ok pr =>
    obtain ⟨mid, st1⟩ := pr
    rw [hp] at h
    have h' : instanceOp nm (.inl mid) mat t st1 = .ok st' := h
    obtain ⟨hi, hnid1, hids1, hmats1, frP, restP, hstkP, hstk1⟩ :=
      prim_ok_shape hp
    subst hi
    rw [hstk] at hstkP
    obtain ⟨hfrP, hrestP⟩ : fr = frP ∧ rest = restP := by
      injection hstkP with ha hb
      exact ⟨ha, hb⟩
    subst hfrP
    subst hrestP
    have hobj1 := prim_ok_objects hp
    have hsrcComp : getObj st1.objects (st.next_id + 1) = some
        ((fun o => ({ o with
          location := overrideAxes o.location ({} : TArgs).px ({} : TArgs).py
            ({} : TArgs).pz
          rotation_euler := overrideAxes o.rotation_euler ({} : TArgs).rx
            ({} : TArgs).ry ({} : TArgs).rz
          scale := overrideAxes o.scale ({} : TArgs).sx ({} : TArgs).sy
            ({} : TArgs).sz } : Obj))
          (Obj.mk (st.next_id + 1) (kind ++ toString (st.next_id + 1))
            ({} : TArgs).p ({} : TArgs).r ({} : TArgs).s Mat.identity none
            st.next_id)) := by
      rw [hobj1, getObj_updateObjList _ _ (fun o => ({ o with
          location := overrideAxes o.location ({} : TArgs).px ({} : TArgs).py
            ({} : TArgs).pz
          rotation_euler := overrideAxes o.rotation_euler ({} : TArgs).rx
            ({} : TArgs).ry ({} : TArgs).rz
          scale := overrideAxes o.scale ({} : TArgs).sx ({} : TArgs).sy
            ({} : TArgs).sz } : Obj)) (fun o => rfl),
        getObj_append_fresh st.objects _ hfresh1]
      simp only [Option.map_some']
      rw [if_pos (by simp : ((Obj.mk (st.next_id + 1)
        (kind ++ toString (st.next_id + 1)) ({} : TArgs).p ({} : TArgs).r
        ({} : TArgs).s Mat.identity none st.next_id).id ==
          st.next_id + 1) = true)]
    have hbaseid : base.id = fr.bpy_object := (getObj_some_id hbase).1
    have hbasemem : base ∈ st.objects := (getObj_some_id hbase).2
    have hbasebound : base.id < st.next_id :=
      hbound _ ((mem_idsOf _ _).mpr ⟨base, hbasemem, rfl⟩)
    have hbaseComp : getObj st1.objects fr.bpy_object = some base := by
      rw [hobj1, getObj_updateObjList _ _ (fun o => ({ o with
          location := overrideAxes o.location ({} : TArgs).px ({} : TArgs).py
            ({} : TArgs).pz
          rotation_euler := overrideAxes o.rotation_euler ({} : TArgs).rx
            ({} : TArgs).ry ({} : TArgs).rz
          scale := overrideAxes o.scale ({} : TArgs).sx ({} : TArgs).sy
            ({} : TArgs).sz } : Obj)) (fun o => rfl),
        getObj_append_left hbase _]
      simp only [Option.map_some']
      rw [if_neg (by simp; omega : ¬ ((base.id == st.next_id + 1) = true))]
    obtain ⟨frI, restI, srcObjI, baseI, hstkI, hsrcI, hbaseI, hstI⟩ :=
      instanceOp_inl_shape h'
    rw [hstk1] at hstkI
    obtain ⟨hfrIeq, hrestI⟩ :
        frI = ParagenStackLayer.mk fr.bpy_object
          (fr.temps ++ [st.next_id + 1]) ∧ restI = rest := by
      injection hstkI with ha hb
      exact ⟨ha.symm, hb.symm⟩
    have hfrIb : frI.bpy_object = fr.bpy_object := by rw [hfrIeq]
    have hfrIt : frI.temps = fr.temps ++ [st.next_id + 1] := by rw [hfrIeq]
    have hbaseIeq : baseI = base := by
      rw [hfrIb, hbaseComp] at hbaseI
      injection hbaseI with hx
      exact hx.symm
    have hsrcIname : srcObjI.name = kind ++ toString (st.next_id + 1) := by
      rw [hsrcComp] at hsrcI
      injection hsrcI with hx
      rw [← hx]
    have htempsfr : ∀ tid ∈ fr.temps, tid < st.next_id := fun tid htid =>
      htempsWF fr (by rw [hstk]; exact List.mem_cons_self _ _) tid htid
    refine ⟨?_, ?_, ?_⟩
    · rw [hstI]
      exact hstk1
    · intro fr' hfr'
      rw [hstI] at hfr'
      have hfr2 : fr' ∈ st1.stack := hfr'
      rw [hstk1] at hfr2
      rcases List.mem_cons.mp hfr2 with hfr2 | hfr2
      · subst hfr2
        intro hmem
        have hmem2 : st.next_id + 2 ∈ fr.temps ++ [st.next_id + 1] := hmem
        rcases List.mem_append.mp hmem2 with hmem2 | hmem2
        · have := htempsfr _ hmem2; omega
        · simp at hmem2
      · intro hmem
        have := htempsWF fr' (by rw [hstk]; exact List.mem_cons_of_mem _ hfr2)
          _ hmem
        omega
    · intro saved st'' popped hx
      obtain ⟨hW3, hN3, hS3, hL3, hP3, hG3⟩ := contextExit_master hwf' hx
      obtain ⟨frX, restX, hstkX, hpopX, hstkX', hnidX, hmatsX, hobjX⟩ :=
        contextExit_ok_shape hx
      have hstkX2 : st1.stack = frX :: restX := by
        rw [hstI] at hstkX
        exact hstkX
      rw [hstk1] at hstkX2
      obtain ⟨hfrXeq, hrestXeq⟩ :
          frX = ParagenStackLayer.mk fr.bpy_object
            (fr.temps ++ [st.next_id + 1]) ∧ restX = rest := by
        injection hstkX2 with ha hb
        exact ⟨ha.symm, hb.symm⟩
      have hfrXt : frX.temps = fr.temps ++ [st.next_id + 1] := by rw [hfrXeq]
      have hmem1 : (st.next_id + 1) ∈ popped := by
        rw [hpopX, hfrXt]
        exact List.mem_append.mpr (Or.inr (by simp))
      refine ⟨hmem1, hG3 _ hmem1, ?_⟩
      have hcpmem : ({ srcObjI with
          id := st1.next_id
          name := baseI.name ++ "." ++ nm
          parent := some frI.bpy_object
          location := overrideAxes t.p t.px t.py t.pz
          rotation_euler := overrideAxes t.r t.rx t.ry t.rz
          scale := overrideAxes t.s t.sx t.sy t.sz } : Obj) ∈
          st'.objects := by
        rw [hstI]
        exact List.mem_append.mpr (Or.inr (by simp))
      have hcpname : ({ srcObjI with
          id := st1.next_id
          name := baseI.name ++ "." ++ nm
          parent := some frI.bpy_object
          location := overrideAxes t.p t.px t.py t.pz
          rotation_euler := overrideAxes t.r t.rx t.ry t.rz
          scale := overrideAxes t.s t.sx t.sy t.sz } : Obj).name =
          base.name ++ "." ++ nm := by
        show baseI.name ++ "." ++ nm = base.name ++ "." ++ nm
        rw [hbaseIeq]
      have hnotin : (base.name ++ "." ++ nm) ∉ frX.temps.filterMap
          (fun tid => (getObj st'.objects tid).map (fun o => o.name)) := by
        intro hin
        obtain ⟨tid, htid, heq⟩ := List.mem_filterMap.mp hin
        obtain ⟨o', ho', honame⟩ := Option.map_eq_some'.mp heq
        obtain ⟨ho'id, ho'mem⟩ := getObj_some_id ho'
        rw [hfrXt] at htid
        rcases List.mem_append.mp htid with htid | htid
        · have htidlt : tid < st.next_id := htempsfr _ htid
          rw [hstI] at ho'mem
          have ho'mem2 : o' ∈ st1.objects ++ [({ srcObjI with
              id := st1.next_id
              name := baseI.name ++ "." ++ nm
              parent := some frI.bpy_object
              location := overrideAxes t.p t.px t.py t.pz
              rotation_euler := overrideAxes t.r t.rx t.ry t.rz
              scale := overrideAxes t.s t.sx t.sy t.sz } : Obj)] := ho'mem
          rcases List.mem_append.mp ho'mem2 with hm | hm
          · rw [hobj1] at hm
            obtain ⟨o, homem, hoeq⟩ := mem_updateObjList hm
            rcases List.mem_append.mp homem with hom | hom
            · by_cases hg : (o.id == st.next_id + 1) = true
              · have hb2 : o.id < st.next_id := hbound _
                  ((mem_idsOf _ _).mpr ⟨o, hom, rfl⟩)
                simp at hg
                omega
              · rw [if_neg hg] at hoeq
                subst hoeq
                exact hfreshname o' hom honame
            · simp at hom
              subst hom
              rw [if_pos (by simp)] at hoeq
              have hid2 : o'.id = st.next_id + 1 := by rw [hoeq]
              omega
          · simp at hm
            subst hm
            have hid3 : st1.next_id = tid := ho'id
            rw [hnid1] at hid3
            omega
        · simp at htid
          subst htid
          have ho'2 : getObj (st1.objects ++ [({ srcObjI with
              id := st1.next_id
              name := baseI.name ++ "." ++ nm
              parent := some frI.bpy_object
              location := overrideAxes t.p t.px t.py t.pz
              rotation_euler := overrideAxes t.r t.rx t.ry t.rz
              scale := overrideAxes t.s t.sx t.sy t.sz } : Obj)])
              (st.next_id + 1) = some o' := by
            rw [hstI] at ho'
            exact ho'
          rw [getObj_append_left hsrcI _] at ho'2
          injection ho'2 with hx'
          rw [← hx', hsrcIname] at honame
          exact hprimname honame.symm
      have hq : (decide (({ srcObjI with
          id := st1.next_id
          name := baseI.name ++ "." ++ nm
          parent := some frI.bpy_object
          location := overrideAxes t.p t.px t.py t.pz
          rotation_euler := overrideAxes t.r t.rx t.ry t.rz
          scale := overrideAxes t.s t.sx t.sy t.sz } : Obj).name ∉
          frX.temps.filterMap (fun tid =>
            (getObj st'.objects tid).map (fun o => o.name)))) = true :=
        decide_eq_true (by rw [hcpname]; exact hnotin)
      have hidsEq : idsOf st''.objects =
          idsOf (st'.objects.filter (fun o => decide (o.name ∉
            frX.temps.filterMap (fun tid =>
              (getObj st'.objects tid).map (fun o => o.name))))) := by
        rw [hobjX]
        exact idsOf_updateObjList _ _ _ (fun o => rfl)
      rw [hidsEq]
      refine (mem_idsOf _ _).mpr ⟨_, List.mem_filter.mpr ⟨hcpmem, hq⟩, ?_⟩
      show st1.next_id = st.next_id + 2
      rw [hnid1]

/-- Concrete run of the C10 theorem: instancing "cube" as "Copy" in
`frameState` registers the temporary primitive (id 3) and not the copy
(id 4); popping the frame deletes id 3 and keeps id 4. -/
theorem instance_string_source_temp_registration_w :
    w10st.stack = [ParagenStackLayer.mk 0 [3]] ∧
    (∀ fr' ∈ w10st.stack, 4 ∉ fr'.temps) ∧
    ∀ saved st'' popped,
      contextExit 0 saved w10st = .ok (st'', popped) →
      3 ∈ popped ∧ 3 ∉ idsOf st''.objects ∧ 4 ∈ idsOf st''.objects :=
  instance_string_source_temp_registration "Copy" "cube" none t3
    frameState w10st ⟨0, []⟩ [] baseObjW
    (by decide) rfl rfl (by decide) (by decide) rfl
